import Mathlib

/-!
# Verification of the client-side tunnel orchestrator (adnl-tunnel)

A shallow embedding of the `RegularOutTunnel` logic of the repository:
state constants, the `WriteTo` endpoint, the payment-chain fixed-point
builder `buildTunnelPaymentsChain`, the control-sender iteration, the
inbound `Process` dispatch (`DeliverUDPPayload`, `OutBindDonePayload`,
`StateMeta`), the payment planner `prepareTunnelControlMessage`, and the
instruction reassembly engine.

Modelling conventions:
* Go `uint32`/`uint64`/`int64` counters are `Nat`/`Int`.  The counters in
  question (packet and seqno counters) are only ever incremented by small
  amounts per event and compared; no arithmetic in the verified claims
  depends on wraparound, so 2^64 wraparound is not modelled.
* `big.Int` values are `Int` (exact, as in Go).
* `time.Time` values are `Int` instants; `a.After(b)` is `b < a`,
  `a.Before(b)` is `a < b`, exactly as in the source comparisons.
* Fallible collaborators that live outside this repository (the cipher,
  the payment service, the transport) are oracles passed in as explicit
  function parameters; a call site that checks `err != nil` in Go checks
  the oracle's answer here.
-/

namespace AdnlTunnel

/-! ## State constants

In the Go source the constant block is

```
const (
  StateTypeDestroyed = math.MaxUint32
  StateTypeConfiguring uint32 = iota
  StateTypeOptimizingRoutes
  StateTypeOptimized
)
```

`iota` counts const-specs from the top of the block, so `StateTypeDestroyed`
occupies index 0 and `StateTypeConfiguring` gets `iota = 1`. -/

def StateTypeDestroyed : Nat := 4294967295

def StateTypeConfiguring : Nat := 1

def StateTypeOptimizingRoutes : Nat := 2

def StateTypeOptimized : Nat := 3

/-- `var ChannelCapacityForNumPayments int64 = 30` -/
def ChannelCapacityForNumPayments : Int := 30

/-- `var ChannelPacketsToPrepay int64 = 200000` -/
def ChannelPacketsToPrepay : Int := 200000

/-! ## The `WriteTo` endpoint

`func (t *RegularOutTunnel) WriteTo(p []byte, addr net.Addr) (n int, err error)`.

The state record carries exactly the fields of `RegularOutTunnel` that
`WriteTo` reads or writes.  `controlRequested` records whether
`requestControlMessage` fired (a try-send on the capacity-1 signal
channel; coalescing makes it a boolean).  The four oracles stand for the
address type assertion, `tl.Serialize`, `payloadKeys.EncryptPayload` and
`peer.SendCustomMessage` succeeding. -/

structure WriteState where
  tunnelState : Nat
  wantDestroy : Bool
  usePayments : Bool
  packetsMinPaidOut : Int
  packetsConsumedOut : Int
  packetsToPrepay : Int
  seqnoSend : Nat
  seqnoForward : Nat
  packetsSent : Nat
  controlRequested : Bool
deriving DecidableEq, Repr

inductive WriteResult where
  | ok (n : Int)
  | errNotReady
  | errDestroyed
  | errPrepaid (paid consumed : Int)
  | errAddrType
  | errSerialize
  | errEncrypt
  | errSend
deriving DecidableEq, Repr

/-- The straight-line tail of `WriteTo` after the payment gate: the
`net.UDPAddr` type assertion, `SendOutPayload` construction (which bumps
`seqnoSend`), serialization, payload encryption, the cached-message send
(which bumps `seqnoForward`) and the `packetsSent` bump on success. -/
def writeSendPhase (plen : Nat) (addrIsUDP serializeOk encryptOk sendOk : Bool)
    (s1 : WriteState) : WriteResult × WriteState :=
  if addrIsUDP = false then (WriteResult.errAddrType, s1)
  else
    let s2 := { s1 with seqnoSend := s1.seqnoSend + 1 }
    if serializeOk = false then (WriteResult.errSerialize, s2)
    else if encryptOk = false then (WriteResult.errEncrypt, s2)
    else
      let s3 := { s2 with seqnoForward := s2.seqnoForward + 1 }
      if sendOk = false then (WriteResult.errSend, s3)
      else (WriteResult.ok (Int.ofNat plen), { s3 with packetsSent := s3.packetsSent + 1 })

def WriteTo (s : WriteState) (plen : Nat)
    (addrIsUDP serializeOk encryptOk sendOk : Bool) : WriteResult × WriteState :=
  if plen = 0 then (WriteResult.ok 0, s)
  else if s.tunnelState < StateTypeOptimized then (WriteResult.errNotReady, s)
  else if s.wantDestroy then (WriteResult.errDestroyed, s)
  else if s.usePayments then
    if s.packetsMinPaidOut < s.packetsConsumedOut then
      (WriteResult.errPrepaid s.packetsMinPaidOut s.packetsConsumedOut, s)
    else
      writeSendPhase plen addrIsUDP serializeOk encryptOk sendOk
        { s with
          packetsConsumedOut := s.packetsConsumedOut + 1,
          controlRequested := s.controlRequested ||
            decide (s.packetsMinPaidOut - (s.packetsConsumedOut + 1) <
              Int.tdiv s.packetsToPrepay 2) }
  else writeSendPhase plen addrIsUDP serializeOk encryptOk sendOk s

theorem writeSendPhase_ne_prepaid (plen : Nat) (aU sOk eOk sdOk : Bool)
    (s1 : WriteState) (a b : Int) :
    (writeSendPhase plen aU sOk eOk sdOk s1).1 ≠ WriteResult.errPrepaid a b := by
  cases aU <;> cases sOk <;> cases eOk <;> cases sdOk <;> simp [writeSendPhase]

theorem writeSendPhase_ok (plen : Nat) (aU sOk eOk sdOk : Bool)
    (s1 : WriteState) (n : Int)
    (h : (writeSendPhase plen aU sOk eOk sdOk s1).1 = WriteResult.ok n) :
    (writeSendPhase plen aU sOk eOk sdOk s1).2.seqnoSend = s1.seqnoSend + 1 ∧
    (writeSendPhase plen aU sOk eOk sdOk s1).2.packetsConsumedOut = s1.packetsConsumedOut := by
  cases aU <;> cases sOk <;> cases eOk <;> cases sdOk <;> simp_all [writeSendPhase]

/-- C3: `WriteTo` with a non-empty payload fails with `NotReady` while the
tunnel state is below `Optimized` and with `Destroyed` once destroy was
requested; for paying tunnels it fails with `PrepaidExhausted` exactly when
`packetsMinPaidOut < packetsConsumedOut`, leaving the whole state (in
particular `packetsConsumedOut` and the send counters) untouched; and any
accepted write bumps `seqnoSend` by exactly 1 and, on paying tunnels,
`packetsConsumedOut` by exactly 1. -/
theorem writeTo_gate_spec (s : WriteState) (plen : Nat) (aU sOk eOk sdOk : Bool)
    (hp : plen ≠ 0) :
    (s.tunnelState < StateTypeOptimized →
      WriteTo s plen aU sOk eOk sdOk = (WriteResult.errNotReady, s)) ∧
    (StateTypeOptimized ≤ s.tunnelState → s.wantDestroy = true →
      WriteTo s plen aU sOk eOk sdOk = (WriteResult.errDestroyed, s)) ∧
    (StateTypeOptimized ≤ s.tunnelState → s.wantDestroy = false → s.usePayments = true →
      (((WriteTo s plen aU sOk eOk sdOk).1 =
          WriteResult.errPrepaid s.packetsMinPaidOut s.packetsConsumedOut) ↔
        s.packetsMinPaidOut < s.packetsConsumedOut) ∧
      (s.packetsMinPaidOut < s.packetsConsumedOut →
        WriteTo s plen aU sOk eOk sdOk =
          (WriteResult.errPrepaid s.packetsMinPaidOut s.packetsConsumedOut, s))) ∧
    (∀ n, (WriteTo s plen aU sOk eOk sdOk).1 = WriteResult.ok n →
      (WriteTo s plen aU sOk eOk sdOk).2.seqnoSend = s.seqnoSend + 1 ∧
      (s.usePayments = true →
        (WriteTo s plen aU sOk eOk sdOk).2.packetsConsumedOut = s.packetsConsumedOut + 1) ∧
      (s.usePayments = false →
        (WriteTo s plen aU sOk eOk sdOk).2.packetsConsumedOut = s.packetsConsumedOut)) := by
  refine ⟨?_, ?_, ?_, ?_⟩
  · intro h1
    simp [WriteTo, hp, h1]
  · intro h1 h2
    have h1' : ¬ s.tunnelState < StateTypeOptimized := by omega
    simp [WriteTo, hp, h1', h2]
  · intro h1 h2 h3
    have h1' : ¬ s.tunnelState < StateTypeOptimized := by omega
    constructor
    · constructor
      · intro h4
        by_cases h5 : s.packetsMinPaidOut < s.packetsConsumedOut
        · exact h5
        · exfalso
          simp only [WriteTo, if_neg hp, if_neg h1', h2, Bool.false_eq_true, if_false,
            h3, if_true, if_neg h5] at h4
          exact writeSendPhase_ne_prepaid _ _ _ _ _ _ _ _ h4
      · intro h5
        simp [WriteTo, hp, h1', h2, h3, h5]
    · intro h5
      simp [WriteTo, hp, h1', h2, h3, h5]
  · intro n hok
    by_cases h1 : s.tunnelState < StateTypeOptimized
    · simp [WriteTo, hp, h1] at hok
    by_cases h2 : s.wantDestroy
    · simp [WriteTo, hp, h1, h2] at hok
    by_cases h3 : s.usePayments
    · by_cases h5 : s.packetsMinPaidOut < s.packetsConsumedOut
      · simp [WriteTo, hp, h1, h2, h3, h5] at hok
      · have heq : WriteTo s plen aU sOk eOk sdOk =
            writeSendPhase plen aU sOk eOk sdOk
              { s with
                packetsConsumedOut := s.packetsConsumedOut + 1,
                controlRequested := s.controlRequested ||
                  decide (s.packetsMinPaidOut - (s.packetsConsumedOut + 1) <
                    Int.tdiv s.packetsToPrepay 2) } := by
          simp [WriteTo, hp, h1, h2, h3, h5]
        rw [heq] at hok ⊢
        obtain ⟨hs, hc⟩ := writeSendPhase_ok _ _ _ _ _ _ _ hok
        refine ⟨hs, fun _ => ?_, fun hfalse => ?_⟩
        · rw [hc]
        · rw [h3] at hfalse; cases hfalse
    · have heq : WriteTo s plen aU sOk eOk sdOk =
          writeSendPhase plen aU sOk eOk sdOk s := by
        simp [WriteTo, hp, h1, h2, h3]
      rw [heq] at hok ⊢
      obtain ⟨hs, hc⟩ := writeSendPhase_ok _ _ _ _ _ _ _ hok
      refine ⟨hs, fun htrue => ?_, fun _ => hc⟩
      · rw [htrue] at h3; cases h3 rfl

/-- A paying `WriteState` with headroom; used to exercise the accepted-write
branch of C3. -/
def writeStateA : WriteState :=
  { tunnelState := 3, wantDestroy := false, usePayments := true,
    packetsMinPaidOut := 10, packetsConsumedOut := 4, packetsToPrepay := 6,
    seqnoSend := 7, seqnoForward := 1, packetsSent := 2, controlRequested := false }

/-- A paying `WriteState` with exhausted prepaid balance; used to exercise the
`PrepaidExhausted` branch of C3. -/
def writeStateB : WriteState :=
  { writeStateA with packetsMinPaidOut := 3, packetsConsumedOut := 8 }

theorem writeTo_gate_spec_witness :
    ((WriteTo writeStateA 5 true true true true).2.seqnoSend = writeStateA.seqnoSend + 1 ∧
      (WriteTo writeStateA 5 true true true true).2.packetsConsumedOut =
        writeStateA.packetsConsumedOut + 1) ∧
    WriteTo writeStateB 5 true true true true =
      (WriteResult.errPrepaid 3 8, writeStateB) := by
  constructor
  · have h := writeTo_gate_spec writeStateA 5 true true true true (by decide)
    have hok : (WriteTo writeStateA 5 true true true true).1 = WriteResult.ok 5 := by decide
    obtain ⟨hs, hc, -⟩ := h.2.2.2 5 hok
    exact ⟨hs, hc rfl⟩
  · have h := writeTo_gate_spec writeStateB 5 true true true true (by decide)
    have hlt : writeStateB.packetsMinPaidOut < writeStateB.packetsConsumedOut := by decide
    have := (h.2.2.1 (by decide) (by decide) (by decide)).2 hlt
    simpa [writeStateB, writeStateA] using this

/-- C10: `WriteTo` with an empty payload returns `(0, nil)` immediately, with
no error and no state change, regardless of tunnel state, destroy flag or
prepaid balance. -/
theorem writeTo_empty_payload (s : WriteState) (aU sOk eOk sdOk : Bool) :
    WriteTo s 0 aU sOk eOk sdOk = (WriteResult.ok 0, s) := by
  simp [WriteTo]

/-! ## The payment-chain fixed-point builder

`func (t *RegularOutTunnel) buildTunnelPaymentsChain(paymentTunnel
[]PaymentTunnelSection, initialCapacity *big.Int, baseTTL, hopTTL
time.Duration) ([]transport.TunnelChainPart, error)`.

`PercentFee` is a `*big.Float` and the candidate percentage fee is computed
with `big.Float` multiplication/division (binary floating point with
operand-dependent precision) truncated to an integer.  That computation is
abstracted as an oracle `pf : Nat → Int → Int` mapping the hop index and
`R = x + cumulative[i+1]` to the truncated candidate fee; none of the
verified properties depend on its value.  All `big.Int` arithmetic is exact
`Int` arithmetic. -/

structure PaymentTunnelSection where
  key : Nat
  minFee : Int
  maxCapacity : Int
deriving DecidableEq, Repr

def dummySection : PaymentTunnelSection := { key := 0, minFee := 0, maxCapacity := 0 }

structure TunnelChainPart where
  target : Nat
  capacity : Int
  fee : Int
  deadline : Int
deriving DecidableEq, Repr

def dummyPart : TunnelChainPart := { target := 0, capacity := 0, fee := 0, deadline := 0 }

/-- The backward pass of one fixed-point iteration: returns the list
`[cumulative[i], …, cumulative[n]]` (so the head is `cumulative[i]` and the
final entry is `cumulative[n] = 0`).  At each hop
`feeI = max(candidateFee, minFee)` exactly as the Go comparison
`candidateFee.Cmp(minFee) > 0` chooses. -/
def cumulativeFeesFrom (pf : Nat → Int → Int) (x : Int) :
    Nat → List PaymentTunnelSection → List Int
  | _, [] => [0]
  | i, sec :: rest =>
    let tail := cumulativeFeesFrom pf x (i + 1) rest
    let c1 := tail.headD 0
    let candidateFee := pf i (x + c1)
    let feeI := if sec.minFee < candidateFee then candidateFee else sec.minFee
    (feeI + c1) :: tail

/-- The forward pass of one fixed-point iteration: `newX` starts at
`initialCapacity` and is lowered to `allowed = maxCapacity[i] −
cumulative[i+1]` whenever `allowed < newX`.  `cums` is the tail
`[cumulative[1], …, cumulative[n]]` aligned with the sections. -/
def forwardNewX (initial : Int) :
    List PaymentTunnelSection → List Int → Int
  | [], _ => initial
  | _ :: _, [] => initial
  | sec :: rest, c1 :: cums => forwardNewX (min initial (sec.maxCapacity - c1)) rest cums

/-- The `maxIter`-bounded fixed-point loop.  Returns the final `x`, the
cumulative-fees list left over from the **last executed backward pass**
(exactly the `cumulativeFees` array Go later builds the chain from) and the
number of iterations performed. -/
def chainFixpointLoop (pf : Nat → Int → Int) (secs : List PaymentTunnelSection)
    (initial : Int) : Nat → Int → Int × List Int × Nat
  | 0, x => (x, cumulativeFeesFrom pf x 0 secs, 0)
  | Nat.succ f, x =>
    let cum := cumulativeFeesFrom pf x 0 secs
    let newX := forwardNewX initial secs cum.tail
    if newX = x then (x, cum, 1)
    else if f = 0 then (newX, cum, 1)
    else
      let r := chainFixpointLoop pf secs initial f newX
      (r.1, r.2.1, r.2.2 + 1)

/-- The loop as invoked by the source: `maxIter := 10`, starting from
`x := initialCapacity`. -/
def chainBuildResult (pf : Nat → Int → Int) (secs : List PaymentTunnelSection)
    (initial : Int) : Int × List Int × Nat :=
  chainFixpointLoop pf secs initial 10 initial

def buildTunnelPaymentsChain (pf : Nat → Int → Int) (secs : List PaymentTunnelSection)
    (initialCapacity : Int) (base hopTTL : Int) : Except String (List TunnelChainPart) :=
  if secs.length = 0 then Except.error "empty payment tunnel"
  else
    let r := chainBuildResult pf secs initialCapacity
    if r.1 < 0 then Except.error "min capacity on the way cannot cover fees"
    else
      Except.ok ((List.range secs.length).map (fun i =>
        { target := (secs.getD i dummySection).key,
          capacity := r.1 + r.2.1.tail.getD i 0,
          fee := r.2.1.getD i 0,
          deadline := base + ((secs.length : Int) - (i : Int)) * hopTTL }))

theorem cumulativeFeesFrom_length (pf : Nat → Int → Int) (x : Int) :
    ∀ (i : Nat) (secs : List PaymentTunnelSection),
      (cumulativeFeesFrom pf x i secs).length = secs.length + 1 := by
  intro i secs
  induction secs generalizing i with
  | nil => simp [cumulativeFeesFrom]
  | cons sec rest ih => simp [cumulativeFeesFrom, ih]

theorem cumulativeFeesFrom_ne_nil (pf : Nat → Int → Int) (x : Int)
    (i : Nat) (secs : List PaymentTunnelSection) :
    cumulativeFeesFrom pf x i secs ≠ [] := by
  have h := cumulativeFeesFrom_length pf x i secs
  intro hc
  rw [hc] at h
  simp at h

theorem tail_getD_int (l : List Int) (i : Nat) (hl : l ≠ []) :
    l.tail.getD i 0 = l.getD (i + 1) 0 := by
  cases l with
  | nil => exact absurd rfl hl
  | cons a t => rfl

theorem forwardNewX_le_init :
    ∀ (secs : List PaymentTunnelSection) (initial : Int) (cums : List Int),
      forwardNewX initial secs cums ≤ initial := by
  intro secs
  induction secs with
  | nil => intro initial cums; simp [forwardNewX]
  | cons sec rest ih =>
    intro initial cums
    cases cums with
    | nil => simp [forwardNewX]
    | cons c cs =>
      calc forwardNewX initial (sec :: rest) (c :: cs)
          = forwardNewX (min initial (sec.maxCapacity - c)) rest cs := rfl
        _ ≤ min initial (sec.maxCapacity - c) := ih _ _
        _ ≤ initial := min_le_left _ _

theorem forwardNewX_le_elem :
    ∀ (secs : List PaymentTunnelSection) (initial : Int) (cums : List Int) (i : Nat),
      i < secs.length → i < cums.length →
      forwardNewX initial secs cums ≤
        (secs.getD i dummySection).maxCapacity - cums.getD i 0 := by
  intro secs
  induction secs with
  | nil => intro initial cums i hi _; simp at hi
  | cons sec rest ih =>
    intro initial cums i hi hc
    cases cums with
    | nil => simp at hc
    | cons c cs =>
      cases i with
      | zero =>
        calc forwardNewX initial (sec :: rest) (c :: cs)
            = forwardNewX (min initial (sec.maxCapacity - c)) rest cs := rfl
          _ ≤ min initial (sec.maxCapacity - c) := forwardNewX_le_init _ _ _
          _ ≤ sec.maxCapacity - c := min_le_right _ _
      | succ j =>
        have hj : j < rest.length := by simpa using hi
        have hjc : j < cs.length := by simpa using hc
        simpa using ih (min initial (sec.maxCapacity - c)) cs j hj hjc

theorem chainFixpointLoop_succ (pf : Nat → Int → Int)
    (secs : List PaymentTunnelSection) (initial : Int) (f : Nat) (x : Int) :
    chainFixpointLoop pf secs initial (Nat.succ f) x =
      (if forwardNewX initial secs (cumulativeFeesFrom pf x 0 secs).tail = x then
        (x, cumulativeFeesFrom pf x 0 secs, 1)
      else if f = 0 then
        (forwardNewX initial secs (cumulativeFeesFrom pf x 0 secs).tail,
          cumulativeFeesFrom pf x 0 secs, 1)
      else
        let r := chainFixpointLoop pf secs initial f
          (forwardNewX initial secs (cumulativeFeesFrom pf x 0 secs).tail)
        (r.1, r.2.1, r.2.2 + 1)) := rfl

theorem chainFixpointLoop_inv (pf : Nat → Int → Int)
    (secs : List PaymentTunnelSection) (initial : Int) :
    ∀ (fuel : Nat) (x : Int), 1 ≤ fuel →
      (∃ xp, (chainFixpointLoop pf secs initial fuel x).2.1 =
        cumulativeFeesFrom pf xp 0 secs) ∧
      (chainFixpointLoop pf secs initial fuel x).1 =
        forwardNewX initial secs (chainFixpointLoop pf secs initial fuel x).2.1.tail := by
  intro fuel
  induction fuel with
  | zero => intro x h; omega
  | succ f ih =>
    intro x _
    rw [chainFixpointLoop_succ]
    by_cases hfix :
        forwardNewX initial secs (cumulativeFeesFrom pf x 0 secs).tail = x
    · simp only [hfix, if_pos rfl]
      exact ⟨⟨x, rfl⟩, hfix.symm⟩
    · cases f with
      | zero =>
        simp only [if_neg hfix, if_pos rfl]
        exact ⟨⟨x, rfl⟩, rfl⟩
      | succ f' =>
        have h := ih (forwardNewX initial secs (cumulativeFeesFrom pf x 0 secs).tail)
          (by omega)
        simpa only [if_neg hfix, if_neg (Nat.succ_ne_zero f')] using h

theorem range_map_getD {α : Type} (n i : Nat) (f : Nat → α) (d : α) (h : i < n) :
    ((List.range n).map f).getD i d = f i := by
  rw [List.getD_eq_getElem?_getD, List.getElem?_map, List.getElem?_range h]
  rfl

theorem chainFixpointLoop_count_le (pf : Nat → Int → Int)
    (secs : List PaymentTunnelSection) (initial : Int) :
    ∀ (fuel : Nat) (x : Int),
      (chainFixpointLoop pf secs initial fuel x).2.2 ≤ fuel := by
  intro fuel
  induction fuel with
  | zero => intro x; simp [chainFixpointLoop]
  | succ f ih =>
    intro x
    rw [chainFixpointLoop_succ]
    by_cases hfix :
        forwardNewX initial secs (cumulativeFeesFrom pf x 0 secs).tail = x
    · simp [hfix]
    · cases f with
      | zero => simp [hfix]
      | succ f' =>
        have h := ih (forwardNewX initial secs (cumulativeFeesFrom pf x 0 secs).tail)
        simp only [if_neg hfix, if_neg (Nat.succ_ne_zero f')]
        omega

/-- C2: for a non-empty payment tunnel the fixed-point loop performs at most
10 iterations; `buildTunnelPaymentsChain` returns the insufficient-capacity
error exactly when the final capacity `x` is negative; and on success `x`
satisfies `0 ≤ x ≤ initialCapacity` while for every hop `i` the required
capacity `x + cumulative[i+1]` (which is exactly what the emitted chain part
carries) does not exceed `maxCapacity[i]`. -/
theorem buildTunnelPaymentsChain_spec (pf : Nat → Int → Int)
    (secs : List PaymentTunnelSection) (initialCapacity base hopTTL : Int)
    (hne : secs ≠ []) :
    (chainBuildResult pf secs initialCapacity).2.2 ≤ 10 ∧
    ((∃ e, buildTunnelPaymentsChain pf secs initialCapacity base hopTTL =
        Except.error e) ↔
      (chainBuildResult pf secs initialCapacity).1 < 0) ∧
    (0 ≤ (chainBuildResult pf secs initialCapacity).1 →
      (chainBuildResult pf secs initialCapacity).1 ≤ initialCapacity ∧
      (∀ i, i < secs.length →
        (chainBuildResult pf secs initialCapacity).1 +
          (chainBuildResult pf secs initialCapacity).2.1.getD (i + 1) 0 ≤
          (secs.getD i dummySection).maxCapacity) ∧
      (∃ parts,
        buildTunnelPaymentsChain pf secs initialCapacity base hopTTL =
          Except.ok parts ∧
        parts.length = secs.length ∧
        ∀ i, i < secs.length →
          (parts.getD i dummyPart).capacity =
            (chainBuildResult pf secs initialCapacity).1 +
              (chainBuildResult pf secs initialCapacity).2.1.getD (i + 1) 0)) := by
  have hlen : secs.length ≠ 0 := by
    have := List.length_pos.mpr hne
    omega
  obtain ⟨⟨xp, hcum⟩, hx⟩ :=
    chainFixpointLoop_inv pf secs initialCapacity 10 initialCapacity (by omega)
  have hrcum : (chainBuildResult pf secs initialCapacity).2.1 =
      cumulativeFeesFrom pf xp 0 secs := hcum
  have hrx : (chainBuildResult pf secs initialCapacity).1 =
      forwardNewX initialCapacity secs
        (chainBuildResult pf secs initialCapacity).2.1.tail := hx
  have hclen : (chainBuildResult pf secs initialCapacity).2.1.length =
      secs.length + 1 := by
    rw [hrcum]
    exact cumulativeFeesFrom_length pf xp 0 secs
  have hcne : (chainBuildResult pf secs initialCapacity).2.1 ≠ [] := by
    intro hc
    rw [hc] at hclen
    simp at hclen
  have htlen : (chainBuildResult pf secs initialCapacity).2.1.tail.length =
      secs.length := by
    have := List.length_tail (chainBuildResult pf secs initialCapacity).2.1
    omega
  refine ⟨chainFixpointLoop_count_le pf secs initialCapacity 10 initialCapacity,
    ?_, ?_⟩
  · by_cases hx0 : (chainBuildResult pf secs initialCapacity).1 < 0
    · constructor
      · intro _; exact hx0
      · intro _
        refine ⟨"min capacity on the way cannot cover fees", ?_⟩
        simp [buildTunnelPaymentsChain, hlen, hx0]
    · constructor
      · rintro ⟨e, he⟩
        simp [buildTunnelPaymentsChain, hlen, hx0] at he
      · intro h; exact absurd h hx0
  · intro hx0
    have hx0' : ¬ (chainBuildResult pf secs initialCapacity).1 < 0 := by omega
    refine ⟨?_, ?_, ?_⟩
    · rw [hrx]
      exact forwardNewX_le_init _ _ _
    · intro i hi
      have hti : i < (chainBuildResult pf secs initialCapacity).2.1.tail.length := by
        omega
      have hle := forwardNewX_le_elem secs initialCapacity
        (chainBuildResult pf secs initialCapacity).2.1.tail i hi hti
      rw [← hrx] at hle
      have hteq := tail_getD_int (chainBuildResult pf secs initialCapacity).2.1 i hcne
      omega
    · refine ⟨(List.range secs.length).map (fun i =>
        { target := (secs.getD i dummySection).key,
          capacity := (chainBuildResult pf secs initialCapacity).1 +
            (chainBuildResult pf secs initialCapacity).2.1.tail.getD i 0,
          fee := (chainBuildResult pf secs initialCapacity).2.1.getD i 0,
          deadline := base + ((secs.length : Int) - (i : Int)) * hopTTL }), ?_, ?_, ?_⟩
      · simp only [buildTunnelPaymentsChain, if_neg hlen, if_neg hx0']
      · simp
      · intro i hi
        rw [range_map_getD secs.length i _ dummyPart hi]
        rw [tail_getD_int (chainBuildResult pf secs initialCapacity).2.1 i hcne]

/-- A concrete percent-fee oracle (1 percent, truncated) for the C2 witness. -/
def pfW : Nat → Int → Int := fun _ r => Int.tdiv r 100

def secsW : List PaymentTunnelSection :=
  [{ key := 1, minFee := 1, maxCapacity := 1000 },
   { key := 2, minFee := 2, maxCapacity := 500 }]

theorem buildTunnelPaymentsChain_spec_witness :
    (chainBuildResult pfW secsW 600).2.2 ≤ 10 ∧
    (chainBuildResult pfW secsW 600).1 ≤ 600 ∧
    (chainBuildResult pfW secsW 600).1 +
      (chainBuildResult pfW secsW 600).2.1.getD 1 0 ≤ 1000 := by
  have h := buildTunnelPaymentsChain_spec pfW secsW 600 0 1 (by decide)
  refine ⟨h.1, (h.2.2 (by decide)).1, ?_⟩
  have h2 := (h.2.2 (by decide)).2.1 0 (by decide)
  simpa [secsW, dummySection] using h2

/-! ## One iteration of the control-sender loop

`func (t *RegularOutTunnel) startControlSender()`, the body of the `for`
loop after the wakeup/ticker select and the 200 ms pacing (neither of which
changes the decision logic).  The iteration either skips (destroy wanted),
sends an init message (`Configuring`), reconfigures (liveness lost for more
than 15 s while `Optimized`), or prepares and sends a control message with
the computed `attachPayments` / `forcePayments` flags.  `warned` records the
33%-loss cheating-detection log. -/

structure CtlState where
  tunnelState : Nat
  wantDestroy : Bool
  usePayments : Bool
  paymentsConfirmed : Int
  controlSeqnoReceived : Nat
  packetsRecv : Nat
  packetsRecvPaidConsumed : Nat
  lastFullyCheckedAt : Int
deriving DecidableEq, Repr

inductive CtlAction where
  | skipDestroy
  | sendInit
  | reconfigure
  | prepareControl (attach force warned : Bool)
deriving DecidableEq, Repr

/-- `paidUsed > received + received/3 + LossNumAcceptable` with
`LossNumAcceptable = 5000`; `received/3` is `uint64` (floor) division. -/
def lossCheatCond (s : CtlState) : Bool :=
  decide (s.packetsRecv + s.packetsRecv / 3 + 5000 < s.packetsRecvPaidConsumed)

def controlIteration (s : CtlState) (nowUnix : Int) : CtlAction × CtlState :=
  if s.wantDestroy then (CtlAction.skipDestroy, s)
  else if s.tunnelState = StateTypeConfiguring then (CtlAction.sendInit, s)
  else if s.tunnelState = StateTypeOptimized ∧ 15 < nowUnix - s.lastFullyCheckedAt then
    (CtlAction.reconfigure,
      { s with
        tunnelState := StateTypeConfiguring,
        paymentsConfirmed := if s.usePayments then 0 else s.paymentsConfirmed })
  else
    (CtlAction.prepareControl
      (decide (s.tunnelState = StateTypeOptimized ∧ s.usePayments = true ∧
        0 < s.controlSeqnoReceived) && ! lossCheatCond s)
      (decide (s.paymentsConfirmed = 0))
      (decide (s.tunnelState = StateTypeOptimized ∧ s.usePayments = true ∧
        0 < s.controlSeqnoReceived) && lossCheatCond s), s)

/-- C6: payments are attached to a control message only when the tunnel is
`Optimized`, payments are in use and at least one control message has been
acknowledged; and even then, when
`packetsRecvPaidConsumed > packetsRecv + packetsRecv/3 + 5000`, payment
attachment is suspended with a warning while the iteration still proceeds to
prepare and send a control message with the state untouched (the tunnel is
not torn down). -/
theorem controlIteration_attach_spec (s : CtlState) (nowUnix : Int) :
    (∀ a f w s', controlIteration s nowUnix = (CtlAction.prepareControl a f w, s') →
      a = true →
      s.tunnelState = StateTypeOptimized ∧ s.usePayments = true ∧
        0 < s.controlSeqnoReceived ∧
        ¬ (s.packetsRecv + s.packetsRecv / 3 + 5000 < s.packetsRecvPaidConsumed)) ∧
    (s.wantDestroy = false → s.tunnelState = StateTypeOptimized →
      ¬ (15 < nowUnix - s.lastFullyCheckedAt) →
      s.usePayments = true → 0 < s.controlSeqnoReceived →
      s.packetsRecv + s.packetsRecv / 3 + 5000 < s.packetsRecvPaidConsumed →
      controlIteration s nowUnix =
        (CtlAction.prepareControl false (decide (s.paymentsConfirmed = 0)) true, s)) := by
  constructor
  · intro a f w s' heq ha
    by_cases h1 : s.wantDestroy = true
    · rw [controlIteration, if_pos h1] at heq
      simp at heq
    by_cases h2 : s.tunnelState = StateTypeConfiguring
    · rw [controlIteration, if_neg h1, if_pos h2] at heq
      simp at heq
    by_cases h3 : s.tunnelState = StateTypeOptimized ∧ 15 < nowUnix - s.lastFullyCheckedAt
    · rw [controlIteration, if_neg h1, if_neg h2, if_pos h3] at heq
      simp at heq
    · rw [controlIteration, if_neg h1, if_neg h2, if_neg h3] at heq
      have hfst := congrArg Prod.fst heq
      simp only [CtlAction.prepareControl.injEq] at hfst
      obtain ⟨hA, hF, hW⟩ := hfst
      rw [ha, Bool.and_eq_true] at hA
      obtain ⟨hb1, hb2⟩ := hA
      have hc := of_decide_eq_true hb1
      have hb2' : lossCheatCond s = false := by
        cases hcl : lossCheatCond s
        · rfl
        · rw [hcl] at hb2
          simp at hb2
      have hnl : ¬ (s.packetsRecv + s.packetsRecv / 3 + 5000 <
          s.packetsRecvPaidConsumed) := by
        simpa [lossCheatCond] using hb2'
      exact ⟨hc.1, hc.2.1, hc.2.2, hnl⟩
  · intro h1 h2 h3 h4 h5 h6
    have h1' : ¬ s.wantDestroy = true := by
      rw [h1]; simp
    have h2' : ¬ s.tunnelState = StateTypeConfiguring := by
      rw [h2]; decide
    have h3' : ¬ (s.tunnelState = StateTypeOptimized ∧
        15 < nowUnix - s.lastFullyCheckedAt) := fun hcon => h3 hcon.2
    rw [controlIteration, if_neg h1', if_neg h2', if_neg h3']
    have hb : decide (s.tunnelState = StateTypeOptimized ∧ s.usePayments = true ∧
        0 < s.controlSeqnoReceived) = true := by
      simp [h2, h4, h5]
    have hl : lossCheatCond s = true := by
      simp only [lossCheatCond, decide_eq_true_eq]
      exact h6
    rw [hb, hl]
    simp

/-- An `Optimized`, paying control state with heavy inbound paid loss
(6000 paid-consumed against 100 received). -/
def ctlStateLossy : CtlState :=
  { tunnelState := 3, wantDestroy := false, usePayments := true,
    paymentsConfirmed := 0, controlSeqnoReceived := 4, packetsRecv := 100,
    packetsRecvPaidConsumed := 6000, lastFullyCheckedAt := 95 }

/-- The same control state with a healthy inbound paid path. -/
def ctlStateHealthy : CtlState :=
  { ctlStateLossy with packetsRecvPaidConsumed := 50 }

theorem controlIteration_attach_spec_witness :
    (controlIteration ctlStateLossy 100 =
      (CtlAction.prepareControl false true true, ctlStateLossy)) ∧
    (ctlStateHealthy.tunnelState = StateTypeOptimized ∧
      ctlStateHealthy.usePayments = true ∧
      0 < ctlStateHealthy.controlSeqnoReceived ∧
      ¬ (ctlStateHealthy.packetsRecv + ctlStateHealthy.packetsRecv / 3 + 5000 <
        ctlStateHealthy.packetsRecvPaidConsumed)) := by
  constructor
  · have h := (controlIteration_attach_spec ctlStateLossy 100).2
      (by decide) (by decide) (by decide) (by decide) (by decide) (by decide)
    simpa using h
  · exact (controlIteration_attach_spec ctlStateHealthy 100).1
      true true false ctlStateHealthy (by decide) rfl

/-! ## Inbound dispatch: `DeliverUDPPayload`

The `case DeliverUDPPayload` arm of
`func (t *RegularOutTunnel) Process(payload []byte, meta any) error`
(reached after the payload decrypted successfully).  The bounded read
channel has capacity `512*1024` entries; a full channel drops the packet and
counts `packetsDropped`. -/

def readChannelCap : Nat := 524288

structure UDPPayloadMsg where
  ipLen : Nat
  port : Nat
  seqno : Nat
  payloadId : Nat
deriving DecidableEq, Repr

structure RecvState where
  usePayments : Bool
  packetsRecv : Nat
  seqnoRecv : Nat
  packetsRecvPaidConsumed : Nat
  packetsConsumedIn : Int
  packetsMinPaidIn : Int
  packetsToPrepay : Int
  packetsDropped : Nat
  readQueue : List UDPPayloadMsg
  controlRequested : Bool
deriving DecidableEq, Repr

inductive RecvResult where
  | ok
  | errInvalidIPLen (l : Nat)
  | errInvalidPort (p : Nat)
  | errChannelFull
deriving DecidableEq, Repr

def deliverUDPPayload (s : RecvState) (p : UDPPayloadMsg) :
    RecvResult × RecvState :=
  if p.ipLen ≠ 4 ∧ p.ipLen ≠ 16 then (RecvResult.errInvalidIPLen p.ipLen, s)
  else if 65535 < p.port then (RecvResult.errInvalidPort p.port, s)
  else
    let seqnoDiff : Nat := if s.seqnoRecv < p.seqno then p.seqno - s.seqnoRecv else 0
    let s3 : RecvState :=
      if s.usePayments = true ∧ 0 < seqnoDiff then
        { s with
          packetsRecv := s.packetsRecv + 1,
          seqnoRecv := if s.seqnoRecv < p.seqno then p.seqno else s.seqnoRecv,
          packetsRecvPaidConsumed := s.packetsRecvPaidConsumed + seqnoDiff,
          packetsConsumedIn := s.packetsConsumedIn + (seqnoDiff : Int),
          controlRequested :=
            if s.packetsMinPaidIn - (s.packetsConsumedIn + (seqnoDiff : Int)) <
                Int.tdiv s.packetsToPrepay 2 then true
            else s.controlRequested }
      else
        { s with
          packetsRecv := s.packetsRecv + 1,
          seqnoRecv := if s.seqnoRecv < p.seqno then p.seqno else s.seqnoRecv }
    if s.readQueue.length < readChannelCap then
      (RecvResult.ok, { s3 with readQueue := s3.readQueue ++ [p] })
    else
      (RecvResult.errChannelFull, { s3 with packetsDropped := s3.packetsDropped + 1 })

/-- C8: an invalid `DeliverUDPPayload` (IP length not 4 or 16, or port above
65535) is rejected with an error and the whole state — `packetsRecv`,
`seqnoRecv`, the payment counters and the read queue — is untouched; a valid
payload bumps `packetsRecv` by exactly 1 and `seqnoRecv` only advances: it
is swapped to the payload seqno exactly when that seqno is larger. -/
theorem deliverUDPPayload_spec (s : RecvState) (p : UDPPayloadMsg) :
    (p.ipLen ≠ 4 ∧ p.ipLen ≠ 16 →
      deliverUDPPayload s p = (RecvResult.errInvalidIPLen p.ipLen, s)) ∧
    ((p.ipLen = 4 ∨ p.ipLen = 16) → 65535 < p.port →
      deliverUDPPayload s p = (RecvResult.errInvalidPort p.port, s)) ∧
    ((p.ipLen = 4 ∨ p.ipLen = 16) → p.port ≤ 65535 →
      (deliverUDPPayload s p).2.packetsRecv = s.packetsRecv + 1 ∧
      (s.seqnoRecv < p.seqno → (deliverUDPPayload s p).2.seqnoRecv = p.seqno) ∧
      (p.seqno ≤ s.seqnoRecv → (deliverUDPPayload s p).2.seqnoRecv = s.seqnoRecv)) := by
  refine ⟨?_, ?_, ?_⟩
  · intro h
    rw [deliverUDPPayload, if_pos h]
  · intro h1 h2
    have h1' : ¬ (p.ipLen ≠ 4 ∧ p.ipLen ≠ 16) := by
      rcases h1 with h | h <;> simp [h]
    rw [deliverUDPPayload, if_neg h1', if_pos h2]
  · intro h1 h2
    have h1' : ¬ (p.ipLen ≠ 4 ∧ p.ipLen ≠ 16) := by
      rcases h1 with h | h <;> simp [h]
    have h2' : ¬ 65535 < p.port := by omega
    simp only [deliverUDPPayload, if_neg h1', if_neg h2']
    refine ⟨?_, ?_, ?_⟩
    · split <;> split <;> (try split) <;> simp
    · intro hseq
      split <;> split <;> (try split) <;> simp [hseq]
    · intro hseq
      have hs' : ¬ s.seqnoRecv < p.seqno := by omega
      split <;> split <;> (try split) <;> simp [hs']

def recvStateW : RecvState :=
  { usePayments := true, packetsRecv := 10, seqnoRecv := 42,
    packetsRecvPaidConsumed := 50, packetsConsumedIn := 50,
    packetsMinPaidIn := 60, packetsToPrepay := 100, packetsDropped := 0,
    readQueue := [], controlRequested := false }

def udpPayloadGood : UDPPayloadMsg :=
  { ipLen := 4, port := 51820, seqno := 45, payloadId := 1 }

def udpPayloadBadIP : UDPPayloadMsg :=
  { ipLen := 5, port := 51820, seqno := 45, payloadId := 2 }

theorem deliverUDPPayload_spec_witness :
    deliverUDPPayload recvStateW udpPayloadBadIP =
      (RecvResult.errInvalidIPLen 5, recvStateW) ∧
    (deliverUDPPayload recvStateW udpPayloadGood).2.packetsRecv =
      recvStateW.packetsRecv + 1 ∧
    (deliverUDPPayload recvStateW udpPayloadGood).2.seqnoRecv = 45 := by
  refine ⟨?_, ?_, ?_⟩
  · exact (deliverUDPPayload_spec recvStateW udpPayloadBadIP).1 (by decide)
  · exact ((deliverUDPPayload_spec recvStateW udpPayloadGood).2.2
      (by decide) (by decide)).1
  · exact ((deliverUDPPayload_spec recvStateW udpPayloadGood).2.2
      (by decide) (by decide)).2.1 (by decide)

/-! ## Inbound dispatch: `OutBindDonePayload`

The `case OutBindDonePayload` arm of `Process`.  The stored external address
is a `net.IP` compared with `net.IP.Equal` (which identifies an IPv4
address with its IPv4-in-IPv6 form), so IP values are abstract `Nat`s and
the equality predicate is an oracle `ipEq`.  The stored port is a `uint16`;
the payload port is a `uint32` truncated by `uint16(p.Port)`, i.e.
`% 65536`. -/

structure BindState where
  seqnoRecv : Nat
  externalAddr : Nat
  externalPort : Nat
  handlerSet : Bool
deriving DecidableEq, Repr

def outBindDone (ipEq : Nat → Nat → Bool) (s : BindState)
    (pSeqno pIP pPort : Nat) : BindState × Bool :=
  let s1 := if pSeqno < s.seqnoRecv then { s with seqnoRecv := pSeqno } else s
  if ipEq s1.externalAddr pIP = true ∧ s1.externalPort = pPort % 65536 then
    (s1, false)
  else
    ({ s1 with externalAddr := pIP, externalPort := pPort % 65536 }, s1.handlerSet)

/-- C9: on `OutBindDone`, if the current `seqnoRecv` exceeds the payload
seqno it is reset to the payload seqno (gateway restart); the stored
external `(ip, port)` pair is rewritten, and the address-changed handler is
invoked (when installed), exactly when the delivered pair differs from the
stored one under the source's comparison — in particular a reported
invocation implies the delivered pair really differs from the stored
values. -/
theorem outBindDone_spec (ipEq : Nat → Nat → Bool) (s : BindState)
    (pSeqno pIP pPort : Nat) :
    ((outBindDone ipEq s pSeqno pIP pPort).1.seqnoRecv =
      if pSeqno < s.seqnoRecv then pSeqno else s.seqnoRecv) ∧
    (ipEq s.externalAddr pIP = true ∧ s.externalPort = pPort % 65536 →
      (outBindDone ipEq s pSeqno pIP pPort).1.externalAddr = s.externalAddr ∧
      (outBindDone ipEq s pSeqno pIP pPort).1.externalPort = s.externalPort ∧
      (outBindDone ipEq s pSeqno pIP pPort).2 = false) ∧
    (¬ (ipEq s.externalAddr pIP = true ∧ s.externalPort = pPort % 65536) →
      (outBindDone ipEq s pSeqno pIP pPort).1.externalAddr = pIP ∧
      (outBindDone ipEq s pSeqno pIP pPort).1.externalPort = pPort % 65536 ∧
      (outBindDone ipEq s pSeqno pIP pPort).2 = s.handlerSet) ∧
    (s.externalPort < 65536 →
      (outBindDone ipEq s pSeqno pIP pPort).2 = true →
      ¬ (ipEq s.externalAddr pIP = true ∧ pPort = s.externalPort)) := by
  have haddr : (if pSeqno < s.seqnoRecv then
      { s with seqnoRecv := pSeqno } else s).externalAddr = s.externalAddr := by
    split <;> rfl
  have hport : (if pSeqno < s.seqnoRecv then
      { s with seqnoRecv := pSeqno } else s).externalPort = s.externalPort := by
    split <;> rfl
  have hhandler : (if pSeqno < s.seqnoRecv then
      { s with seqnoRecv := pSeqno } else s).handlerSet = s.handlerSet := by
    split <;> rfl
  have hcondIff : (ipEq (if pSeqno < s.seqnoRecv then
        { s with seqnoRecv := pSeqno } else s).externalAddr pIP = true ∧
      (if pSeqno < s.seqnoRecv then
        { s with seqnoRecv := pSeqno } else s).externalPort = pPort % 65536) ↔
      (ipEq s.externalAddr pIP = true ∧ s.externalPort = pPort % 65536) := by
    rw [haddr, hport]
  refine ⟨?_, ?_, ?_, ?_⟩
  · by_cases hsq : pSeqno < s.seqnoRecv
    · simp only [outBindDone, if_pos hsq]
      split <;> rfl
    · simp only [outBindDone, if_neg hsq]
      split <;> rfl
  · intro h
    simp only [outBindDone, if_pos (hcondIff.mpr h)]
    simp [haddr, hport]
  · intro h
    simp only [outBindDone, if_neg (fun hc => h (hcondIff.mp hc))]
    simp [hhandler]
  · intro hu16 hinv hpair
    have hmod : s.externalPort = pPort % 65536 := by
      rw [← hpair.2]
      exact (Nat.mod_eq_of_lt (by omega)).symm
    have hcond : ipEq s.externalAddr pIP = true ∧ s.externalPort = pPort % 65536 :=
      ⟨hpair.1, hmod⟩
    simp only [outBindDone, if_pos (hcondIff.mpr hcond)] at hinv
    cases hinv

def bindStateW : BindState :=
  { seqnoRecv := 42, externalAddr := 7, externalPort := 80, handlerSet := true }

/-- Concrete IP-equality oracle for the C9 witness. -/
def natEqB : Nat → Nat → Bool := fun a b => a == b

theorem outBindDone_spec_witness :
    (outBindDone natEqB bindStateW 0 9 51820).1.seqnoRecv = 0 ∧
    (outBindDone natEqB bindStateW 0 9 51820).1.externalAddr = 9 ∧
    (outBindDone natEqB bindStateW 0 9 51820).2 = true ∧
    ¬ (natEqB bindStateW.externalAddr 9 = true ∧ 51820 = bindStateW.externalPort) := by
  have h := outBindDone_spec natEqB bindStateW 0 9 51820
  refine ⟨?_, ?_, ?_, ?_⟩
  · simpa using h.1
  · exact (h.2.2.1 (by decide)).1
  · have hh := (h.2.2.1 (by decide)).2.2
    simpa [bindStateW] using hh
  · exact h.2.2.2 (by decide) (by decide)

/-! ## Inbound dispatch: `StateMeta{OptimizingRoutes}`

The `case StateTypeOptimizingRoutes` arm of `Process` (reached while
`tunnelState < StateTypeOptimized`):

```
atomic.StoreUint32(&t.tunnelState, StateTypeOptimized)
if atomic.CompareAndSwapUint32(&t.tunnelState, StateTypeOptimizingRoutes, StateTypeOptimized) {
    t.log.Info().Msg("route optimized, ready to use")
    t.requestControlMessage()
}
```

The model returns `(new tunnelState, CAS succeeded, requestControlMessage
invoked)`.  Since no concurrent writer is interposed between the store and
the CAS in this sequential embedding, the CAS compares the freshly stored
value against `StateTypeOptimizingRoutes`. -/

def processStateOptimizingRoutes (_tunnelState : Nat) : Nat × Bool × Bool :=
  let stored := StateTypeOptimized
  if stored = StateTypeOptimizingRoutes then (StateTypeOptimized, true, true)
  else (stored, false, false)

/-- C7 (divergence): delivering `StateMeta{OptimizingRoutes}` in state
`OptimizingRoutes` does set the state to `Optimized`, but only through the
unconditional store: the subsequent compare-and-swap
`OptimizingRoutes → Optimized` always fails (the state it examines is
already `Optimized`), so `requestControlMessage` is never invoked — contrary
to the claim that the transition happens via a successful CAS with a
control message requested. -/
theorem processStateOptimizingRoutes_dead_cas :
    processStateOptimizingRoutes StateTypeOptimizingRoutes =
      (StateTypeOptimized, false, false) ∧
    ∀ st : Nat, (processStateOptimizingRoutes st).2.1 = false ∧
      (processStateOptimizingRoutes st).2.2 = false := by
  constructor
  · decide
  · intro st
    exact ⟨rfl, rfl⟩

/-! ## The payment planner: `prepareTunnelControlMessage`

`func (t *RegularOutTunnel) prepareTunnelControlMessage(withPayments,
forcePayments bool) (*EncryptedMessage, time.Time, error)`.

The hop list is `nodes = chainTo ++ chainFrom`; each hop carries its
section id (the little-endian `uint32` of its section public key, used as
the next hop's route id) and an optional `Payer`.  The loop walks `i` from
`len(nodes)-1` down to `0`, assembling one encrypted instruction layer per
hop; deferred payment mutations are collected and applied only after every
layer encrypted successfully (`mutations` in the source), while the
expired-channel cleanup, the channel opening and `PaidChannelFee` are
applied immediately, exactly as in the source.

External collaborators are oracles in `PrepEnv`: `encryptOk i` models
`EncryptInstructionsMessage` on hop `i`; `openChannel i wantCap` models
`openVirtualChannel` (whose returned channel always starts with
`LastAmount = 0`, source lines 520–525, and whose first-hop fee is added to
`PaidChannelFee` immediately); `toCellOk`/`resolveOk` model `tlb.ToCell` and
`AddVirtualChannelResolve`. -/

structure ChannelM where
  chanKey : Nat
  lastAmount : Int
  capacity : Int
  safeDeadline : Int
deriving DecidableEq, Repr

structure PaymentInstructionM where
  key : Nat
  stateAmount : Int
  final : Bool
  purpose : Nat
deriving DecidableEq, Repr

structure PayerM where
  pricePerPacket : Nat
  paidPackets : Int
  currentChannel : Option ChannelM
  paidChannelFee : Int
  latestChannelDeadline : Int
  latestPaidOnSeqno : Nat
  latestInstruction : Option PaymentInstructionM
  latestPacketsPaid : Int
deriving DecidableEq, Repr

structure NodeM where
  sectionId : Nat
  paymentInfo : Option PayerM
deriving DecidableEq, Repr

def dummyNode : NodeM := { sectionId := 0, paymentInfo := none }

structure OpenedChan where
  chanKey : Nat
  capacity : Int
  safeDeadline : Int
  firstHopFee : Int
deriving DecidableEq, Repr

structure PrepEnv where
  now : Int
  encryptOk : Nat → Bool
  openChannel : Nat → Int → Option OpenedChan
  toCellOk : Nat → Bool
  resolveOk : Nat → Bool

structure PrepState where
  nodes : List NodeM
  chainToLen : Nat
  localID : Nat
  controlSeqno : Nat
  controlPaidSeqnoReceived : Nat
  packetsConsumedOut : Int
  packetsConsumedIn : Int
  packetsToPrepay : Int
  packetsMinPaidIn : Int
  packetsMinPaidOut : Int
deriving DecidableEq, Repr

inductive CtlInstr where
  | payment (pi : PaymentInstructionM)
  | route (rid : Nat)
  | deliverInitiator (fromId seqno : Nat) (withPayments : Bool)
deriving DecidableEq, Repr

inductive PrepErr where
  | encryptFailed (i : Nat)
  | openChannelFailed (i : Nat)
  | toCellFailed (i : Nat)
  | resolveFailed (i : Nat)
deriving DecidableEq, Repr

/-- The data captured by one deferred mutation closure: `payFor`, the built
`PaymentInstruction`, `stateAmount`, `isFinal` and the channel it refers to
(the closure reads `p.CurrentChannel` at application time; since each hop is
visited once and nothing else touches the payer between queueing and
application, that channel is exactly the one snapshotted here). -/
structure PendingMut where
  payFor : Int
  pi : PaymentInstructionM
  stateAmount : Int
  snapshotChannel : ChannelM
  isFinal : Bool
deriving DecidableEq, Repr

/-- `^routeId` on a `uint32`: bitwise complement. -/
def notU32 (x : Nat) : Nat := 4294967295 - x % 4294967296

/-- Modelled from the spec: the purpose tag enum (`PaymentPurposeOut`,
`PaymentPurposeRoute`) is declared outside `src/`; the spec only fixes that
`purpose = tag<<32 | route_id` with distinct tags for the egress-gateway hop
and routed hops, so distinct abstract values are used. -/
def PaymentPurposeOut : Nat := 0

/-- Modelled from the spec: see `PaymentPurposeOut`. -/
def PaymentPurposeRoute : Nat := 1

/-- The `VirtualPaymentChannel` built from a successful
`openVirtualChannel`: `LastAmount` starts at zero (source line 522). -/
def openedToChannel (oc : OpenedChan) : ChannelM :=
  { chanKey := oc.chanKey, lastAmount := 0, capacity := oc.capacity,
    safeDeadline := oc.safeDeadline }

/-- `p.CurrentChannel, err = t.openVirtualChannel(p, wantCap)`: on success
the fresh channel is installed and the first-hop fee is added to
`PaidChannelFee` immediately; on failure the assignment still happens,
clearing `CurrentChannel` (the nil result is assigned before the error
check). -/
def tryOpenChannel (env : PrepEnv) (i : Nat) (wantCap : Int) (p1 : PayerM) :
    Option (PayerM × ChannelM) :=
  match env.openChannel i wantCap with
  | none => none
  | some oc =>
    some ({ p1 with
      currentChannel := some (openedToChannel oc),
      paidChannelFee := p1.paidChannelFee + oc.firstHopFee }, openedToChannel oc)

/-- `if p.CurrentChannel == nil || p.CurrentChannel.SafeDeadline.Before(now)`:
keep the existing channel, or open a fresh one. -/
def channelForPayment (env : PrepEnv) (i : Nat) (wantCap : Int) (p1 : PayerM) :
    Option (PayerM × ChannelM) :=
  match p1.currentChannel with
  | some ch =>
    if ch.safeDeadline < env.now then tryOpenChannel env i wantCap p1
    else some (p1, ch)
  | none => tryOpenChannel env i wantCap p1

/-- The new-payment part of the per-hop payment block (everything after the
resend/expiry handling of `LatestInstruction`): balance computation by hop
class, the prepay trigger, channel (re)opening, `payFor`/`isFinal`
computation, the signed state, the built `PaymentInstruction`, the optional
`forcePayments` reattachment of the previous instruction, and the deferred
mutation record. -/
def hopPaymentsNew (env : PrepEnv) (t : PrepState) (forcePayments : Bool)
    (i rid : Nat) (p1 : PayerM) (instrs0 : List CtlInstr) :
    (PayerM × List CtlInstr × Option PendingMut) ⊕ (PayerM × PrepErr) :=
  let consumedOut := t.packetsConsumedOut
  let consumedIn := t.packetsConsumedIn
  let consumedMax := if consumedOut < consumedIn then consumedIn else consumedOut
  let balanceBase :=
    if t.chainToLen ≤ i then consumedIn
    else if i = t.chainToLen - 1 then consumedMax
    else consumedOut
  let balance := p1.paidPackets - balanceBase
  if balance ≤ Int.tdiv t.packetsToPrepay 2 ∨ forcePayments = true then
    let price : Int := Int.ofNat p1.pricePerPacket
    let prepay0 := t.packetsToPrepay - balance
    let prepay := if prepay0 < 0 then 0 else prepay0
    let wantCap := t.packetsToPrepay * price * ChannelCapacityForNumPayments
    match channelForPayment env i wantCap p1 with
    | none => Sum.inr ({ p1 with currentChannel := none },
        PrepErr.openChannelFailed i)
    | some (p2, ch) =>
      let left := ch.capacity - ch.lastAmount
      let room := Int.ediv left price
      let payFor := if prepay < room then prepay else room
      let isFinal : Bool := ! decide (prepay < room)
      let amount := payFor * price
      let stateAmount := ch.lastAmount + amount
      if env.toCellOk i = false then Sum.inr (p2, PrepErr.toCellFailed i)
      else if env.resolveOk i = false then Sum.inr (p2, PrepErr.resolveFailed i)
      else
        let purpose :=
          if i = t.chainToLen - 1 then PaymentPurposeOut * 4294967296
          else PaymentPurposeRoute * 4294967296 + rid % 4294967296
        let pi : PaymentInstructionM :=
          { key := ch.chanKey, stateAmount := stateAmount,
            final := isFinal, purpose := purpose }
        let instrs1 :=
          if forcePayments = true ∧ p2.latestInstruction.isSome = true ∧
              env.now < p2.latestChannelDeadline ∧
              p2.latestChannelDeadline ≠ ch.safeDeadline then
            instrs0 ++ p2.latestInstruction.elim []
              (fun li => [CtlInstr.payment li]) ++ [CtlInstr.payment pi]
          else instrs0 ++ [CtlInstr.payment pi]
        Sum.inl (p2, instrs1, some {
          payFor := payFor,
          pi := pi,
          stateAmount := stateAmount,
          snapshotChannel := ch,
          isFinal := isFinal })
  else Sum.inl (p1, instrs0, none)

/-- The full per-hop payment block for a paying hop (`withPayments` and
`PricePerPacket > 0` already checked by the caller): the unconfirmed
`LatestInstruction` is reattached when its channel deadline is still in the
future; an expired one is discarded with `PaidPackets -= LatestPacketsPaid`
(immediately, not deferred) before falling through to the new-payment
logic. -/
def hopPayments (env : PrepEnv) (t : PrepState) (forcePayments : Bool)
    (i rid : Nat) (p : PayerM) :
    (PayerM × List CtlInstr × Option PendingMut) ⊕ (PayerM × PrepErr) :=
  match p.latestInstruction with
  | some li =>
    if t.controlPaidSeqnoReceived < p.latestPaidOnSeqno then
      if env.now < p.latestChannelDeadline then
        Sum.inl (p, [CtlInstr.payment li], none)
      else
        hopPaymentsNew env t forcePayments i rid
          { p with
            latestInstruction := none,
            paidPackets := p.paidPackets - p.latestPacketsPaid } []
    else hopPaymentsNew env t forcePayments i rid p []
  | none => hopPaymentsNew env t forcePayments i rid p []

/-- One non-terminal hop of the loop: the payment block (when applicable),
the trailing system-route instruction `RouteInstruction{^routeId}`, and the
layer encryption. -/
def prepHopStep (env : PrepEnv) (t : PrepState) (withPayments forcePayments : Bool)
    (i : Nat) (node : NodeM) (nextSectionId : Nat) :
    (NodeM × List CtlInstr × Option PendingMut) ⊕ (NodeM × PrepErr) :=
  let rid := nextSectionId
  let payRes : (Option PayerM × List CtlInstr × Option PendingMut) ⊕
      (Option PayerM × PrepErr) :=
    match node.paymentInfo with
    | some p =>
      if withPayments = true ∧ 0 < p.pricePerPacket then
        match hopPayments env t forcePayments i rid p with
        | Sum.inl (p', is, m) => Sum.inl (some p', is, m)
        | Sum.inr (p', e) => Sum.inr (some p', e)
      else Sum.inl (some p, [], none)
    | none => Sum.inl (none, [], none)
  match payRes with
  | Sum.inr (pOpt, e) => Sum.inr ({ node with paymentInfo := pOpt }, e)
  | Sum.inl (pOpt, is, m) =>
    if env.encryptOk i = true then
      Sum.inl ({ node with paymentInfo := pOpt },
        is ++ [CtlInstr.route (notU32 rid)], m)
    else Sum.inr ({ node with paymentInfo := pOpt }, PrepErr.encryptFailed i)

/-- Hop `i` of the loop: hop `n-1` is "ourself" and only encrypts the
`DeliverInitiatorInstruction` with `PingMeta{Seqno: controlSeqno+1}`; every
other hop runs `prepHopStep`. -/
def hopAt (env : PrepEnv) (t : PrepState) (withPayments forcePayments : Bool)
    (n i : Nat) (nodes : List NodeM) :
    (List NodeM × List CtlInstr × Option PendingMut) ⊕ (List NodeM × PrepErr) :=
  if i = n - 1 then
    if env.encryptOk i = true then
      Sum.inl (nodes,
        [CtlInstr.deliverInitiator t.localID (t.controlSeqno + 1) withPayments],
        none)
    else Sum.inr (nodes, PrepErr.encryptFailed i)
  else
    match prepHopStep env t withPayments forcePayments i (nodes.getD i dummyNode)
        ((nodes.getD (i + 1) dummyNode).sectionId) with
    | Sum.inl (node', is, m) => Sum.inl (nodes.set i node', is, m)
    | Sum.inr (node', e) => Sum.inr (nodes.set i node', e)

/-- The queued-mutation entry contributed by one hop. -/
def mutEntry (i : Nat) (m : Option PendingMut) : List (Nat × PendingMut) :=
  match m with
  | some pm => [(i, pm)]
  | none => []

/-- The loop `for i := len(nodes) - 1; i >= 0; i--`, threading the updated
hop list, the encrypted layers (in processing order) and the queued
mutations tagged with their hop index. -/
def goHops (env : PrepEnv) (t : PrepState) (withPayments forcePayments : Bool)
    (n : Nat) :
    Nat → List NodeM → List (List CtlInstr) → List (Nat × PendingMut) →
    (List NodeM × List (List CtlInstr) × List (Nat × PendingMut)) ⊕
      (List NodeM × PrepErr)
  | 0, nodes, layers, muts =>
    match hopAt env t withPayments forcePayments n 0 nodes with
    | Sum.inl (nodes', is, m) =>
      Sum.inl (nodes', layers ++ [is], muts ++ mutEntry 0 m)
    | Sum.inr (nodes', e) => Sum.inr (nodes', e)
  | Nat.succ j, nodes, layers, muts =>
    match hopAt env t withPayments forcePayments n (j + 1) nodes with
    | Sum.inl (nodes', is, m) =>
      goHops env t withPayments forcePayments n j nodes' (layers ++ [is])
        (muts ++ mutEntry (j + 1) m)
    | Sum.inr (nodes', e) => Sum.inr (nodes', e)

/-- One deferred mutation closure, applied after `controlSeqno` was
incremented to `seq`. -/
def applyMut (seq : Nat) (m : PendingMut) (p : PayerM) : PayerM :=
  { p with
    paidPackets := p.paidPackets + m.payFor,
    latestPacketsPaid := m.payFor,
    latestInstruction := some m.pi,
    latestChannelDeadline := m.snapshotChannel.safeDeadline,
    latestPaidOnSeqno := seq,
    currentChannel :=
      if m.isFinal = true then none
      else some { m.snapshotChannel with lastAmount := m.stateAmount } }

def applyMuts (seq : Nat) (muts : List (Nat × PendingMut)) (nodes : List NodeM) :
    List NodeM :=
  muts.foldl (fun ns im =>
    match (ns.getD im.1 dummyNode).paymentInfo with
    | some p =>
      ns.set im.1 { ns.getD im.1 dummyNode with paymentInfo := some (applyMut seq im.2 p) }
    | none => ns) nodes

def maxInt64 : Int := 9223372036854775807

/-- The post-loop pass computing `minDeadline`, `minPaidIn` and `minPaidOut`
over the (mutated) hop list; the accumulator is
`(minPaidIn, minPaidOut, minDeadline)` with `minDeadline = none` standing
for the zero `time.Time`. -/
def computeMins (chainToLen : Nat) (nodes : List NodeM) : Int × Int × Option Int :=
  (List.range nodes.length).foldl (fun acc i =>
    if i = nodes.length - 1 then acc
    else
      match (nodes.getD i dummyNode).paymentInfo with
      | none => acc
      | some p =>
        let mDl :=
          match p.currentChannel, acc.2.2 with
          | some ch, none => some ch.safeDeadline
          | some ch, some d => if ch.safeDeadline < d then some ch.safeDeadline else some d
          | none, d => d
        if chainToLen ≤ i then (min acc.1 p.paidPackets, acc.2.1, mDl)
        else if i = chainToLen - 1 then
          (min acc.1 p.paidPackets, min acc.2.1 p.paidPackets, mDl)
        else (acc.1, min acc.2.1 p.paidPackets, mDl))
    (maxInt64, maxInt64, (none : Option Int))

/-- The epilogue after every layer encrypted: `controlSeqno++`, the deferred
mutations applied in queue order, and the recomputed prepaid minima
stored. -/
def prepFinish (t : PrepState) (nodesAfter : List NodeM)
    (layers : List (List CtlInstr)) (muts : List (Nat × PendingMut)) :
    (PrepState × List (List CtlInstr) × Option Int) ⊕ (PrepState × PrepErr) :=
  let seq := t.controlSeqno + 1
  let nodes' := applyMuts seq muts nodesAfter
  let mins := computeMins t.chainToLen nodes'
  Sum.inl ({ t with
    nodes := nodes',
    controlSeqno := seq,
    packetsMinPaidIn := mins.1,
    packetsMinPaidOut := mins.2.1 }, layers, mins.2.2)

def prepareTunnelControlMessage (env : PrepEnv) (t : PrepState)
    (withPayments forcePayments : Bool) :
    (PrepState × List (List CtlInstr) × Option Int) ⊕ (PrepState × PrepErr) :=
  if t.nodes.length = 0 then prepFinish t t.nodes [] []
  else
    match goHops env t withPayments forcePayments t.nodes.length
        (t.nodes.length - 1) t.nodes [] [] with
    | Sum.inl (nodes', layers, muts) => prepFinish t nodes' layers muts
    | Sum.inr (nodes', e) => Sum.inr ({ t with nodes := nodes' }, e)

/-! ### Frame relations for the error path

`payerIntact p q` says `q` differs from `p` only by the immediately applied
effects of the loop — no deferred mutation was applied: the `latest*`
accounting fields are unchanged except that `latestInstruction` may have
been discarded (expired-channel cleanup) together with the matching
`paidPackets -= latestPacketsPaid`; `currentChannel` is unchanged, cleared,
or replaced by a freshly opened channel whose `lastAmount` is still zero.
In particular `paidPackets` never increases and no existing channel's
`lastAmount` advances. -/

def payerIntact (p q : PayerM) : Prop :=
  q.pricePerPacket = p.pricePerPacket ∧
  q.latestPaidOnSeqno = p.latestPaidOnSeqno ∧
  q.latestPacketsPaid = p.latestPacketsPaid ∧
  q.latestChannelDeadline = p.latestChannelDeadline ∧
  (q.latestInstruction = p.latestInstruction ∨ q.latestInstruction = none) ∧
  (q.paidPackets = p.paidPackets ∨
    q.paidPackets = p.paidPackets - p.latestPacketsPaid) ∧
  (q.currentChannel = p.currentChannel ∨ q.currentChannel = none ∨
    ∃ ch, q.currentChannel = some ch ∧ ch.lastAmount = 0)

/-- The stronger frame relation on the new-payment sub-block, which never
touches `paidPackets` or the `latest*` fields at all. -/
def payerNewIntact (p q : PayerM) : Prop :=
  q.pricePerPacket = p.pricePerPacket ∧
  q.latestPaidOnSeqno = p.latestPaidOnSeqno ∧
  q.latestPacketsPaid = p.latestPacketsPaid ∧
  q.latestChannelDeadline = p.latestChannelDeadline ∧
  q.latestInstruction = p.latestInstruction ∧
  q.paidPackets = p.paidPackets ∧
  (q.currentChannel = p.currentChannel ∨ q.currentChannel = none ∨
    ∃ ch, q.currentChannel = some ch ∧ ch.lastAmount = 0)

def nodeIntact (a b : NodeM) : Prop :=
  b.sectionId = a.sectionId ∧
  match a.paymentInfo, b.paymentInfo with
  | none, none => True
  | some p, some q => payerIntact p q
  | _, _ => False

theorem payerIntact_refl (p : PayerM) : payerIntact p p :=
  ⟨rfl, rfl, rfl, rfl, Or.inl rfl, Or.inl rfl, Or.inl rfl⟩

theorem nodeIntact_refl (a : NodeM) : nodeIntact a a := by
  refine ⟨rfl, ?_⟩
  cases a.paymentInfo with
  | none => trivial
  | some p => exact payerIntact_refl p

theorem tryOpenChannel_newIntact (env : PrepEnv) (i : Nat) (wantCap : Int)
    (p1 p2 : PayerM) (ch : ChannelM)
    (h : tryOpenChannel env i wantCap p1 = some (p2, ch)) :
    payerNewIntact p1 p2 := by
  unfold tryOpenChannel at h
  split at h
  · cases h
  · next oc hoc =>
    simp only [Option.some.injEq, Prod.mk.injEq] at h
    obtain ⟨hp, -⟩ := h
    subst hp
    exact ⟨rfl, rfl, rfl, rfl, rfl, rfl,
      Or.inr (Or.inr ⟨openedToChannel oc, rfl, rfl⟩)⟩

theorem channelForPayment_newIntact (env : PrepEnv) (i : Nat) (wantCap : Int)
    (p1 p2 : PayerM) (ch : ChannelM)
    (h : channelForPayment env i wantCap p1 = some (p2, ch)) :
    payerNewIntact p1 p2 := by
  unfold channelForPayment at h
  split at h
  · split at h
    · exact tryOpenChannel_newIntact env i wantCap p1 p2 ch h
    · simp only [Option.some.injEq, Prod.mk.injEq] at h
      obtain ⟨hp, -⟩ := h
      subst hp
      exact ⟨rfl, rfl, rfl, rfl, rfl, rfl, Or.inl rfl⟩
  · exact tryOpenChannel_newIntact env i wantCap p1 p2 ch h

/-- The payer carried by a per-hop payment result, success or failure. -/
def outPayer (r : (PayerM × List CtlInstr × Option PendingMut) ⊕ (PayerM × PrepErr)) :
    PayerM :=
  match r with
  | Sum.inl (p, _, _) => p
  | Sum.inr (p, _) => p

theorem outPayer_ite (c : Prop) [Decidable c]
    (a b : (PayerM × List CtlInstr × Option PendingMut) ⊕ (PayerM × PrepErr)) :
    outPayer (if c then a else b) = if c then outPayer a else outPayer b := by
  split <;> rfl

theorem outPayer_inl (p : PayerM) (is : List CtlInstr) (m : Option PendingMut) :
    outPayer (Sum.inl (p, is, m)) = p := rfl

theorem outPayer_inr (p : PayerM) (e : PrepErr) :
    outPayer (Sum.inr (p, e)) = p := rfl

theorem hopPaymentsNew_outPayer (env : PrepEnv) (t : PrepState) (fp : Bool)
    (i rid : Nat) (p1 : PayerM) (instrs0 : List CtlInstr) :
    payerNewIntact p1 (outPayer (hopPaymentsNew env t fp i rid p1 instrs0)) := by
  cases hcp : channelForPayment env i
      (t.packetsToPrepay * Int.ofNat p1.pricePerPacket *
        ChannelCapacityForNumPayments) p1 with
  | none =>
    simp only [hopPaymentsNew, hcp, outPayer_ite, outPayer_inl, outPayer_inr, ite_self]
    repeat' split
    all_goals
      first
        | exact ⟨rfl, rfl, rfl, rfl, rfl, rfl, Or.inr (Or.inl rfl)⟩
        | exact ⟨rfl, rfl, rfl, rfl, rfl, rfl, Or.inl rfl⟩
  | some pc =>
    obtain ⟨p2, ch⟩ := pc
    have h2 := channelForPayment_newIntact env i _ p1 p2 ch hcp
    simp only [hopPaymentsNew, hcp, outPayer_ite, outPayer_inl, outPayer_inr, ite_self]
    repeat' split
    all_goals
      first
        | exact h2
        | exact ⟨rfl, rfl, rfl, rfl, rfl, rfl, Or.inl rfl⟩

theorem payerNewIntact_payerIntact (p q : PayerM) (h : payerNewIntact p q) :
    payerIntact p q :=
  ⟨h.1, h.2.1, h.2.2.1, h.2.2.2.1, Or.inl h.2.2.2.2.1, Or.inl h.2.2.2.2.2.1,
    h.2.2.2.2.2.2⟩

/-- Composing the immediate expired-channel cleanup with the new-payment
frame yields the error-path frame relative to the original payer. -/
theorem payerNewIntact_after_cleanup (p q : PayerM)
    (h : payerNewIntact
      { p with
        latestInstruction := none,
        paidPackets := p.paidPackets - p.latestPacketsPaid } q) :
    payerIntact p q := by
  obtain ⟨h1, h2, h3, h4, h5, h6, h7⟩ := h
  exact ⟨h1, h2, h3, h4, Or.inr h5, Or.inr h6, h7⟩

theorem hopPayments_outPayer (env : PrepEnv) (t : PrepState) (fp : Bool)
    (i rid : Nat) (p : PayerM) :
    payerIntact p (outPayer (hopPayments env t fp i rid p)) := by
  unfold hopPayments
  cases hli : p.latestInstruction with
  | none =>
    exact payerNewIntact_payerIntact _ _ (hopPaymentsNew_outPayer env t fp i rid p [])
  | some li =>
    simp only []
    by_cases hseq : t.controlPaidSeqnoReceived < p.latestPaidOnSeqno
    · by_cases hdl : env.now < p.latestChannelDeadline
      · rw [if_pos hseq, if_pos hdl, outPayer_inl]
        exact payerIntact_refl p
      · rw [if_pos hseq, if_neg hdl]
        exact payerNewIntact_after_cleanup p _
          (hopPaymentsNew_outPayer env t fp i rid _ [])
    · rw [if_neg hseq]
      exact payerNewIntact_payerIntact _ _ (hopPaymentsNew_outPayer env t fp i rid p [])

/-- The node carried by a per-hop step result, success or failure. -/
def outNode (r : (NodeM × List CtlInstr × Option PendingMut) ⊕ (NodeM × PrepErr)) :
    NodeM :=
  match r with
  | Sum.inl (n, _, _) => n
  | Sum.inr (n, _) => n

theorem outNode_inl (n : NodeM) (is : List CtlInstr) (m : Option PendingMut) :
    outNode (Sum.inl (n, is, m)) = n := rfl

theorem outNode_inr (n : NodeM) (e : PrepErr) :
    outNode (Sum.inr (n, e)) = n := rfl

theorem prepHopStep_outNode (env : PrepEnv) (t : PrepState) (wp fp : Bool)
    (i : Nat) (node : NodeM) (nid : Nat) :
    nodeIntact node (outNode (prepHopStep env t wp fp i node nid)) := by
  cases hpi : node.paymentInfo with
  | none =>
    simp only [prepHopStep, hpi]
    split
    · exact ⟨rfl, by simp [outNode_inl, hpi]⟩
    · exact ⟨rfl, by simp [outNode_inr, hpi]⟩
  | some p =>
    by_cases hw : wp = true ∧ 0 < p.pricePerPacket
    · cases hhp : hopPayments env t fp i nid p with
      | inl triple =>
        obtain ⟨p', is, m⟩ := triple
        have hint : payerIntact p p' := by
          have h := hopPayments_outPayer env t fp i nid p
          rw [hhp, outPayer_inl] at h
          exact h
        simp only [prepHopStep, hpi, if_pos hw, hhp]
        split
        · exact ⟨rfl, by simp only [outNode_inl, hpi]; exact hint⟩
        · exact ⟨rfl, by simp only [outNode_inr, hpi]; exact hint⟩
      | inr pair =>
        obtain ⟨p', e⟩ := pair
        have hint : payerIntact p p' := by
          have h := hopPayments_outPayer env t fp i nid p
          rw [hhp, outPayer_inr] at h
          exact h
        simp only [prepHopStep, hpi, if_pos hw, hhp]
        exact ⟨rfl, by simp only [outNode_inr, hpi]; exact hint⟩
    · simp only [prepHopStep, hpi, if_neg hw]
      split
      · exact ⟨rfl, by simp only [outNode_inl, hpi]; exact payerIntact_refl p⟩
      · exact ⟨rfl, by simp only [outNode_inr, hpi]; exact payerIntact_refl p⟩

theorem getD_set_ne {α : Type} (l : List α) (i j : Nat) (a d : α) (h : i ≠ j) :
    (l.set i a).getD j d = l.getD j d := by
  rw [List.getD_eq_getElem?_getD, List.getD_eq_getElem?_getD, List.getElem?_set_ne h]

theorem getD_set_at {α : Type} (l : List α) (i : Nat) (a d : α) :
    (l.set i a).getD i d = if i < l.length then a else l.getD i d := by
  by_cases hi : i < l.length
  · rw [List.getD_eq_getElem?_getD, if_pos hi]
    rw [List.getElem?_set_self hi]
    rfl
  · rw [if_neg hi, List.set_eq_of_length_le (by omega)]

/-- The hop list carried by a loop-state result, success or failure. -/
def goNodes (r : (List NodeM × List (List CtlInstr) × List (Nat × PendingMut)) ⊕
    (List NodeM × PrepErr)) : List NodeM :=
  match r with
  | Sum.inl (ns, _, _) => ns
  | Sum.inr (ns, _) => ns

theorem goNodes_inl (ns : List NodeM) (ls : List (List CtlInstr))
    (ms : List (Nat × PendingMut)) : goNodes (Sum.inl (ns, ls, ms)) = ns := rfl

theorem goNodes_inr (ns : List NodeM) (e : PrepErr) :
    goNodes (Sum.inr (ns, e)) = ns := rfl

def hopNodes (r : (List NodeM × List CtlInstr × Option PendingMut) ⊕
    (List NodeM × PrepErr)) : List NodeM :=
  match r with
  | Sum.inl (ns, _, _) => ns
  | Sum.inr (ns, _) => ns

theorem hopNodes_inl (ns : List NodeM) (is : List CtlInstr) (m : Option PendingMut) :
    hopNodes (Sum.inl (ns, is, m)) = ns := rfl

theorem hopNodes_inr (ns : List NodeM) (e : PrepErr) :
    hopNodes (Sum.inr (ns, e)) = ns := rfl

/-- One hop of the loop leaves every other index untouched, preserves the
length, and the hop's own node evolves only by the immediate (never the
deferred) effects. -/
theorem hopAt_frame (env : PrepEnv) (t : PrepState) (wp fp : Bool)
    (n i : Nat) (nodes : List NodeM) :
    (hopNodes (hopAt env t wp fp n i nodes)).length = nodes.length ∧
    (∀ k, k ≠ i → (hopNodes (hopAt env t wp fp n i nodes)).getD k dummyNode =
      nodes.getD k dummyNode) ∧
    nodeIntact (nodes.getD i dummyNode)
      ((hopNodes (hopAt env t wp fp n i nodes)).getD i dummyNode) := by
  by_cases hself : i = n - 1
  · simp only [hopAt, if_pos hself]
    split
    · exact ⟨rfl, fun k _ => rfl, nodeIntact_refl _⟩
    · exact ⟨rfl, fun k _ => rfl, nodeIntact_refl _⟩
  · have key : ∀ node' : NodeM,
        nodeIntact (nodes.getD i dummyNode) node' →
        (nodes.set i node').length = nodes.length ∧
        (∀ k, k ≠ i → (nodes.set i node').getD k dummyNode =
          nodes.getD k dummyNode) ∧
        nodeIntact (nodes.getD i dummyNode)
          ((nodes.set i node').getD i dummyNode) := by
      intro node' hint
      refine ⟨List.length_set nodes i node', fun k hk => getD_set_ne nodes i k node' dummyNode
        (fun hik => hk hik.symm), ?_⟩
      rw [getD_set_at]
      split
      · exact hint
      · exact nodeIntact_refl _
    cases hps : prepHopStep env t wp fp i (nodes.getD i dummyNode)
        ((nodes.getD (i + 1) dummyNode).sectionId) with
    | inl triple =>
      obtain ⟨node', is, m⟩ := triple
      have hint : nodeIntact (nodes.getD i dummyNode) node' := by
        have h := prepHopStep_outNode env t wp fp i (nodes.getD i dummyNode)
          ((nodes.getD (i + 1) dummyNode).sectionId)
        rw [hps, outNode_inl] at h
        exact h
      simp only [hopAt, if_neg hself, hps, hopNodes_inl]
      exact key node' hint
    | inr pair =>
      obtain ⟨node', e⟩ := pair
      have hint : nodeIntact (nodes.getD i dummyNode) node' := by
        have h := prepHopStep_outNode env t wp fp i (nodes.getD i dummyNode)
          ((nodes.getD (i + 1) dummyNode).sectionId)
        rw [hps, outNode_inr] at h
        exact h
      simp only [hopAt, if_neg hself, hps, hopNodes_inr]
      exact key node' hint

/-- The loop from hop `j` down to hop `0`: indices above `j` are untouched,
the length is preserved, and every index at most `j` evolves only by the
immediate effects. -/
theorem goHops_frame (env : PrepEnv) (t : PrepState) (wp fp : Bool) (n : Nat) :
    ∀ (j : Nat) (nodes : List NodeM) (layers : List (List CtlInstr))
      (muts : List (Nat × PendingMut)),
      (goNodes (goHops env t wp fp n j nodes layers muts)).length = nodes.length ∧
      (∀ k, j < k → (goNodes (goHops env t wp fp n j nodes layers muts)).getD k dummyNode =
        nodes.getD k dummyNode) ∧
      (∀ k, k ≤ j → nodeIntact (nodes.getD k dummyNode)
        ((goNodes (goHops env t wp fp n j nodes layers muts)).getD k dummyNode)) := by
  intro j
  induction j with
  | zero =>
    intro nodes layers muts
    obtain ⟨hlen, hne, hat⟩ := hopAt_frame env t wp fp n 0 nodes
    cases hha : hopAt env t wp fp n 0 nodes with
    | inl triple =>
      obtain ⟨ns', is, m⟩ := triple
      rw [hha, hopNodes_inl] at hlen hne hat
      simp only [goHops, hha, goNodes_inl]
      exact ⟨hlen, fun k hk => hne k (by omega), fun k hk => by
        have hk0 : k = 0 := by omega
        rw [hk0]; exact hat⟩
    | inr pair =>
      obtain ⟨ns', e⟩ := pair
      rw [hha, hopNodes_inr] at hlen hne hat
      simp only [goHops, hha, goNodes_inr]
      exact ⟨hlen, fun k hk => hne k (by omega), fun k hk => by
        have hk0 : k = 0 := by omega
        rw [hk0]; exact hat⟩
  | succ j ih =>
    intro nodes layers muts
    obtain ⟨hlen, hne, hat⟩ := hopAt_frame env t wp fp n (j + 1) nodes
    cases hha : hopAt env t wp fp n (j + 1) nodes with
    | inl triple =>
      obtain ⟨ns1, is, m⟩ := triple
      rw [hha, hopNodes_inl] at hlen hne hat
      simp only [goHops, hha]
      obtain ⟨ihlen, ihne, ihat⟩ := ih ns1 (layers ++ [is])
        (muts ++ mutEntry (j + 1) m)
      refine ⟨by rw [ihlen, hlen], ?_, ?_⟩
      · intro k hk
        rw [ihne k (by omega), hne k (by omega)]
      · intro k hk
        by_cases hkj : k ≤ j
        · have h1 := ihat k hkj
          rw [hne k (by omega)] at h1
          exact h1
        · have hkeq : k = j + 1 := by omega
          subst hkeq
          have h2 := ihne (j + 1) (by omega)
          rw [h2]
          exact hat
    | inr pair =>
      obtain ⟨ns', e⟩ := pair
      rw [hha, hopNodes_inr] at hlen hne hat
      simp only [goHops, hha, goNodes_inr]
      refine ⟨hlen, fun k hk => hne k (by omega), ?_⟩
      intro k hk
      by_cases hkj : k = j + 1
      · subst hkj
        exact hat
      · rw [hne k hkj]
        exact nodeIntact_refl _

/-- C1 (amended): payment mutations queued while assembling a control
message are all-or-nothing.  On any failure (encryption of a hop's layer,
channel opening, state-cell serialization or resolve submission) the call
returns an error with `controlSeqno` and the stored prepaid minima
untouched, and every hop's payer shows no applied deferred mutation: its
`latestPaidOnSeqno`, `latestPacketsPaid` and `latestChannelDeadline` are
unchanged, `latestInstruction` is unchanged or discarded by the immediate
expired-channel cleanup, `paidPackets` is unchanged or decremented by
`latestPacketsPaid` by that same cleanup (never increased), and
`currentChannel` is unchanged, cleared, or a freshly opened channel whose
`lastAmount` is still 0 — so no existing channel's `last_amount` advanced.
On success `controlSeqno` is incremented and the final hop list is exactly
the assembled hop list with the whole queued-mutation batch applied
afterwards in one pass. -/
theorem prepareTunnelControlMessage_atomicity (env : PrepEnv) (t : PrepState)
    (wp fp : Bool) :
    (∀ t' e, prepareTunnelControlMessage env t wp fp = Sum.inr (t', e) →
      t'.controlSeqno = t.controlSeqno ∧
      t'.packetsMinPaidIn = t.packetsMinPaidIn ∧
      t'.packetsMinPaidOut = t.packetsMinPaidOut ∧
      t'.nodes.length = t.nodes.length ∧
      ∀ k, k < t.nodes.length →
        nodeIntact (t.nodes.getD k dummyNode) (t'.nodes.getD k dummyNode)) ∧
    (∀ t' out, prepareTunnelControlMessage env t wp fp = Sum.inl (t', out) →
      t'.controlSeqno = t.controlSeqno + 1 ∧
      (t.nodes.length ≠ 0 →
        ∃ ns ls ms,
          goHops env t wp fp t.nodes.length (t.nodes.length - 1) t.nodes [] [] =
            Sum.inl (ns, ls, ms) ∧
          t'.nodes = applyMuts (t.controlSeqno + 1) ms ns)) := by
  constructor
  · intro t' e h
    by_cases hn : t.nodes.length = 0
    · simp only [prepareTunnelControlMessage, if_pos hn, prepFinish] at h
      exact Sum.noConfusion h
    · simp only [prepareTunnelControlMessage, if_neg hn] at h
      cases hg : goHops env t wp fp t.nodes.length (t.nodes.length - 1)
          t.nodes [] [] with
      | inl triple =>
        obtain ⟨ns, ls, ms⟩ := triple
        rw [hg] at h
        simp only [prepFinish] at h
        exact Sum.noConfusion h
      | inr pair =>
        obtain ⟨ns', e0⟩ := pair
        rw [hg] at h
        simp only [Sum.inr.injEq, Prod.mk.injEq] at h
        obtain ⟨ht, -⟩ := h
        obtain ⟨glen, -, gat⟩ := goHops_frame env t wp fp t.nodes.length
          (t.nodes.length - 1) t.nodes [] []
        rw [hg, goNodes_inr] at glen gat
        rw [← ht]
        refine ⟨rfl, rfl, rfl, glen, ?_⟩
        intro k hk
        exact gat k (by omega)
  · intro t' out h
    by_cases hn : t.nodes.length = 0
    · simp only [prepareTunnelControlMessage, if_pos hn, prepFinish,
        Sum.inl.injEq, Prod.mk.injEq] at h
      obtain ⟨ht, -⟩ := h
      rw [← ht]
      exact ⟨rfl, fun hne => absurd hn hne⟩
    · simp only [prepareTunnelControlMessage, if_neg hn] at h
      cases hg : goHops env t wp fp t.nodes.length (t.nodes.length - 1)
          t.nodes [] [] with
      | inl triple =>
        obtain ⟨ns, ls, ms⟩ := triple
        rw [hg] at h
        simp only [prepFinish, Sum.inl.injEq, Prod.mk.injEq] at h
        obtain ⟨ht, -⟩ := h
        rw [← ht]
        exact ⟨rfl, fun _ => ⟨ns, ls, ms, rfl, rfl⟩⟩
      | inr pair =>
        obtain ⟨ns', e0⟩ := pair
        rw [hg] at h
        exact Sum.noConfusion h

/-- Inputs for the C1 counterexample: one paying forward hop whose
unconfirmed latest payment sits on an expired channel, and an encryption
oracle that fails on hop 0 (after hop 1, ourselves, already encrypted). -/
def liX : PaymentInstructionM :=
  { key := 9, stateAmount := 7, final := false, purpose := 0 }

def payerX : PayerM :=
  { pricePerPacket := 1, paidPackets := 100, currentChannel := none,
    paidChannelFee := 0, latestChannelDeadline := 0, latestPaidOnSeqno := 5,
    latestInstruction := some liX, latestPacketsPaid := 5 }

def prepStateX : PrepState :=
  { nodes := [{ sectionId := 11, paymentInfo := some payerX },
              { sectionId := 22, paymentInfo := none }],
    chainToLen := 1, localID := 1, controlSeqno := 3,
    controlPaidSeqnoReceived := 0, packetsConsumedOut := 0,
    packetsConsumedIn := 0, packetsToPrepay := 10,
    packetsMinPaidIn := 0, packetsMinPaidOut := 0 }

def prepEnvX : PrepEnv :=
  { now := 10, encryptOk := fun i => decide (i ≠ 0),
    openChannel := fun _ _ => none, toCellOk := fun _ => true,
    resolveOk := fun _ => true }

def prepStateXAfter : PrepState :=
  { prepStateX with
    nodes := [{ sectionId := 11,
                paymentInfo := some { payerX with
                  latestInstruction := none, paidPackets := 95 } },
              { sectionId := 22, paymentInfo := none }] }

/-- C1 counterexample: the claim as stated is false — here the encryption of
hop 0's layer fails and the call returns an error, yet hop 0's
`paid_packets` has changed (100 → 95) and its `latest_instruction` was
discarded, because the expired-channel cleanup is applied immediately inside
the loop, not deferred. -/
theorem prepareTunnelControlMessage_nonatomic_cleanup :
    prepareTunnelControlMessage prepEnvX prepStateX true false =
      Sum.inr (prepStateXAfter, PrepErr.encryptFailed 0) ∧
    (prepStateXAfter.nodes.getD 0 dummyNode).paymentInfo.map PayerM.paidPackets ≠
      (prepStateX.nodes.getD 0 dummyNode).paymentInfo.map PayerM.paidPackets ∧
    (prepStateXAfter.nodes.getD 0 dummyNode).paymentInfo.map
        PayerM.latestInstruction ≠
      (prepStateX.nodes.getD 0 dummyNode).paymentInfo.map
        PayerM.latestInstruction := by
  refine ⟨by decide, by decide, by decide⟩

/-- C5: for a paying hop with an unconfirmed latest payment
(`latestInstruction` present and `latestPaidOnSeqno >
controlPaidSeqnoReceived`): if the latest channel deadline is still in the
future, the stored instruction is reattached verbatim, no deferred mutation
is queued and the payer is untouched (no new payment state is signed); if
the deadline has passed, the hop proceeds to the new-payment logic on the
payer with `latestInstruction` discarded and `paidPackets` already
decremented by `latestPacketsPaid` — the decrement happens before any new
payment is minted. -/
theorem hopPayments_resend_spec (env : PrepEnv) (t : PrepState) (fp : Bool)
    (i rid : Nat) (p : PayerM) (li : PaymentInstructionM)
    (hli : p.latestInstruction = some li)
    (hseq : t.controlPaidSeqnoReceived < p.latestPaidOnSeqno) :
    (env.now < p.latestChannelDeadline →
      hopPayments env t fp i rid p = Sum.inl (p, [CtlInstr.payment li], none)) ∧
    (p.latestChannelDeadline ≤ env.now →
      hopPayments env t fp i rid p =
        hopPaymentsNew env t fp i rid
          { p with
            latestInstruction := none,
            paidPackets := p.paidPackets - p.latestPacketsPaid } []) := by
  constructor
  · intro h
    simp only [hopPayments, hli]
    rw [if_pos hseq, if_pos h]
  · intro h
    have h' : ¬ env.now < p.latestChannelDeadline := by omega
    simp only [hopPayments, hli]
    rw [if_pos hseq, if_neg h']

def liW5 : PaymentInstructionM :=
  { key := 4, stateAmount := 20, final := false, purpose := 0 }

/-- A payer with an unconfirmed latest payment on a still-valid channel. -/
def payerW5 : PayerM :=
  { pricePerPacket := 2, paidPackets := 100, currentChannel := none,
    paidChannelFee := 0, latestChannelDeadline := 50, latestPaidOnSeqno := 3,
    latestInstruction := some liW5, latestPacketsPaid := 7 }

/-- The same payer with the latest channel deadline already passed. -/
def payerW5x : PayerM := { payerW5 with latestChannelDeadline := 0 }

def prepStateW5 : PrepState :=
  { nodes := [], chainToLen := 1, localID := 0, controlSeqno := 0,
    controlPaidSeqnoReceived := 0, packetsConsumedOut := 0,
    packetsConsumedIn := 0, packetsToPrepay := 10,
    packetsMinPaidIn := 0, packetsMinPaidOut := 0 }

def prepEnvW5 : PrepEnv :=
  { now := 10, encryptOk := fun _ => true, openChannel := fun _ _ => none,
    toCellOk := fun _ => true, resolveOk := fun _ => true }

theorem hopPayments_resend_spec_witness :
    hopPayments prepEnvW5 prepStateW5 false 0 1 payerW5 =
      Sum.inl (payerW5, [CtlInstr.payment liW5], none) ∧
    hopPayments prepEnvW5 prepStateW5 false 0 1 payerW5x =
      hopPaymentsNew prepEnvW5 prepStateW5 false 0 1
        { payerW5x with
          latestInstruction := none,
          paidPackets := payerW5x.paidPackets - payerW5x.latestPacketsPaid } [] := by
  constructor
  · exact (hopPayments_resend_spec prepEnvW5 prepStateW5 false 0 1 payerW5 liW5
      (by decide) (by decide)).1 (by decide)
  · exact (hopPayments_resend_spec prepEnvW5 prepStateW5 false 0 1 payerW5x liW5
      (by decide) (by decide)).2 (by decide)

theorem prepareTunnelControlMessage_atomicity_witness :
    prepStateXAfter.controlSeqno = prepStateX.controlSeqno ∧
    prepStateXAfter.packetsMinPaidIn = prepStateX.packetsMinPaidIn ∧
    nodeIntact (prepStateX.nodes.getD 0 dummyNode)
      (prepStateXAfter.nodes.getD 0 dummyNode) := by
  have h := (prepareTunnelControlMessage_atomicity prepEnvX prepStateX true false).1
    prepStateXAfter (PrepErr.encryptFailed 0) (by decide)
  exact ⟨h.1, h.2.1, h.2.2.2.2 0 (by decide)⟩

/-! ## Instruction reassembly

`func (t *RegularOutTunnel) ReassembleInstructions(msg *EncryptedMessage)
(*EncryptedMessage, error)` and its recursive worker
`reassembleInstructions`.

spec-modelled encryption layer: the symmetric cipher
(`EncryptInstructionsMessage` / `decryptStream`) lives outside `src/`; per
the spec (sections 3 and 4.3) a layered message is built innermost-first,
each encryption wrapping one instruction container under one section's
keys.  The opaque `Instructions []byte` blob is therefore modelled as a
stack of layers `(sectionId, container)`, outermost first: encrypting
pushes a layer, decrypting under section `s` succeeds exactly when the
outermost layer was encrypted for `s` and pops it (the `len(data) < 12`
corruption guard is subsumed by this abstraction).  With this model the
byte-length equality the source asserts (`len(rs.Instructions) !=
ln → panic`) is exactly equality of the number of instruction containers.
Sections are identified by their section ids; `resolveSection` walks
`chainTo` then `chainFrom` as in the source.  The unbounded Go recursion is
given explicit fuel; every claim is quantified over the fuel. -/

inductive RInstr where
  | route (rid : Nat)
  | bindOut (inSection : Nat) (inLayers : List (Nat × List RInstr))
  | other (tag : Nat)

structure EncMsgM where
  sectionPubKey : Nat
  instructions : List (Nat × List RInstr)
  payload : Nat

/-- Search one chain: if `key` is a member, return the following element
(`none` when `key` is the last). -/
def findNextIn (chain : List Nat) (key : Nat) : Option (Option Nat) :=
  match chain with
  | [] => none
  | a :: rest => if a = key then some rest.head? else findNextIn rest key

def resolveSection (chainTo chainFrom : List Nat) (key : Nat) :
    Option (Nat × Option Nat) :=
  match findNextIn chainTo key with
  | some nxt =>
    some (key, match nxt with
      | some n => some n
      | none => chainFrom.head?)
  | none =>
    match findNextIn chainFrom key with
    | some nxt => some (key, nxt)
    | none => none

def hasRouteInstr : List RInstr → Bool
  | [] => false
  | RInstr.route _ :: _ => true
  | _ :: rest => hasRouteInstr rest

mutual

/-- `reassembleInstructions`: walk the layers, recurse into `BindOut`
inner messages, and rebuild the message by re-encrypting the collected
containers innermost-first — which reproduces the collected layer stack in
its original order, with the outermost section as the message key. -/
def reasmGo (ct cf : List Nat) : Nat → EncMsgM → Except String EncMsgM
  | 0, _ => Except.error "depth exceeded"
  | Nat.succ fuel, msg => do
    let collected ← reasmWalk ct cf fuel msg.sectionPubKey msg.instructions
    Except.ok {
      sectionPubKey := (collected.head?.map Prod.fst).getD msg.sectionPubKey,
      instructions := collected,
      payload := msg.payload }

/-- The decrypt-parse-advance loop of `reassembleInstructions`: resolve the
section, pop its layer, rewrite contained `BindOut` instructions, and
continue to the next section while a `RouteInstruction` points onwards. -/
def reasmWalk (ct cf : List Nat) : Nat → Nat → List (Nat × List RInstr) →
    Except String (List (Nat × List RInstr))
  | 0, _, _ => Except.error "depth exceeded"
  | Nat.succ fuel, key, rest =>
    match resolveSection ct cf key with
    | none => Except.error "section not found"
    | some (sec, nextSec) =>
      match rest with
      | [] => Except.error "decrypt stream failed"
      | (tag, container) :: rest' =>
        if tag = sec then do
          let container' ← mapBindOut ct cf fuel container
          match nextSec, hasRouteInstr container with
          | some nk, true => do
            let tailRes ← reasmWalk ct cf fuel nk rest'
            Except.ok ((sec, container') :: tailRes)
          | _, _ => Except.ok [(sec, container')]
        else Except.error "decrypt stream failed"

/-- Rewrite each `BindOut` by reassembling its inbound instructions. -/
def mapBindOut (ct cf : List Nat) : Nat → List RInstr → Except String (List RInstr)
  | 0, _ => Except.error "depth exceeded"
  | Nat.succ _, [] => Except.ok []
  | Nat.succ fuel, ins :: rest => do
    let ins' ← match ins with
      | RInstr.bindOut k layers => do
        let inner ← reasmGo ct cf fuel
          { sectionPubKey := k, instructions := layers, payload := 0 }
        Except.ok (RInstr.bindOut k inner.instructions)
      | x => Except.ok x
    let rest' ← mapBindOut ct cf fuel rest
    Except.ok (ins' :: rest')

end

inductive ROutcome where
  | ok (m : EncMsgM)
  | err (e : String)
  | panic

/-- The public wrapper: reassemble, then a hard assertion that the
reassembled instruction blob has the same length as the input — a mismatch
panics instead of returning an error. -/
def ReassembleInstructions (ct cf : List Nat) (fuel : Nat) (msg : EncMsgM) :
    ROutcome :=
  let ln := msg.instructions.length
  match reasmGo ct cf fuel msg with
  | Except.error e => ROutcome.err e
  | Except.ok rs =>
    if rs.instructions.length ≠ ln then ROutcome.panic
    else ROutcome.ok rs

/-- C4: whenever `ReassembleInstructions` accepts a message (returns it
reassembled), the reassembled message carries exactly as many instruction
containers as the input; and when reassembly computes a message whose
container count differs from the input's, the wrapper aborts with a panic —
it never returns that mismatch as an error. -/
theorem reassembleInstructions_count_spec (ct cf : List Nat) (fuel : Nat)
    (msg rs : EncMsgM) (h : reasmGo ct cf fuel msg = Except.ok rs) :
    (ReassembleInstructions ct cf fuel msg =
      (if rs.instructions.length = msg.instructions.length then ROutcome.ok rs
       else ROutcome.panic)) ∧
    (∀ rs', ReassembleInstructions ct cf fuel msg = ROutcome.ok rs' →
      rs'.instructions.length = msg.instructions.length) := by
  constructor
  · simp only [ReassembleInstructions, h]
    by_cases hl : rs.instructions.length = msg.instructions.length
    · rw [if_neg (by omega), if_pos hl]
    · rw [if_pos hl, if_neg hl]
  · intro rs' h'
    simp only [ReassembleInstructions, h] at h'
    split at h'
    · cases h'
    · next hne =>
      injection h' with hrs
      rw [← hrs]
      omega

def chainToW4 : List Nat := [1, 2]

def chainFromW4 : List Nat := [3]

/-- Two layers, outer container routes onwards: the walk visits both layers
and reassembly is accepted. -/
def msgOkW4 : EncMsgM :=
  { sectionPubKey := 1,
    instructions := [(1, [RInstr.route 5]), (2, [RInstr.other 0])],
    payload := 7 }

/-- Three layers, but the second container carries no route instruction:
the walk stops after two layers and the wrapper must panic. -/
def msgPanicW4 : EncMsgM :=
  { sectionPubKey := 1,
    instructions := [(1, [RInstr.route 5]), (2, [RInstr.other 0]),
      (9, [RInstr.other 0])],
    payload := 7 }

def rsOkW4 : EncMsgM :=
  { sectionPubKey := 1,
    instructions := [(1, [RInstr.route 5]), (2, [RInstr.other 0])],
    payload := 7 }

theorem reassembleInstructions_count_spec_witness :
    ReassembleInstructions chainToW4 chainFromW4 10 msgOkW4 = ROutcome.ok rsOkW4 ∧
    ReassembleInstructions chainToW4 chainFromW4 10 msgPanicW4 = ROutcome.panic := by
  constructor
  · have h := (reassembleInstructions_count_spec chainToW4 chainFromW4 10
      msgOkW4 rsOkW4 (by rfl)).1
    rw [if_pos (by rfl)] at h
    exact h
  · have h := (reassembleInstructions_count_spec chainToW4 chainFromW4 10
      msgPanicW4 rsOkW4 (by rfl)).1
    rw [if_neg (by decide)] at h
    exact h

end AdnlTunnel
